import Mathlib

/-!
Shallow embedding of the demux core of the bcl2fastr repository.

Byte strings are modelled as lists of natural numbers (one entry per byte,
always below 256 on real inputs), and the HashSet values of the source are
modelled as lists considered up to membership: every set operation that the
source performs (insertion, membership test, intersection emptiness) depends
only on membership, so a list is a faithful set representation.

The modules hamming_set.rs and cbcl_header_decoder.rs of the repository are
not part of the provided sources (only their callers are), so the definitions
taken from them are modelled from the specification and marked as such.
-/

set_option maxHeartbeats 1000000

/-- Index strings are byte strings, one natural number per byte. -/
abbrev Index := List Nat

/-- A set of index strings, modelled as a list up to membership. -/
abbrev IndexSet := List Index

/-- Modelled from the spec: the alphabet of the Hamming neighborhood builder
of the missing module hamming_set.rs, the bytes of the letters A, C, G, T, N. -/
def alphabet : List Nat := [65, 67, 71, 84, 78]

/-- Modelled from the spec: singleton_set of the missing module hamming_set.rs
returns the one-element set holding the given index string. -/
def singleton_set (s : Index) : IndexSet := [s]

/-- Modelled from the spec: hamming_set of the missing module hamming_set.rs
maps a set S to the set of all strings obtained from a member of S by
substituting one position with a letter of the alphabet (substituting the
letter already present is allowed, so the set is closed and grows by one
Hamming distance step per application). -/
def hamming_set (S : IndexSet) : IndexSet :=
  S.flatMap (fun s =>
    (List.range s.length).flatMap (fun k => alphabet.map (fun c => s.set k c)))

/-- Intersection of two index sets as lists, used to state the conflict
predicate by membership. -/
def inter (s t : IndexSet) : IndexSet := s.filter (fun x => t.contains x)

/-- Modelled from the spec: check_conflict of the missing module
hamming_set.rs. Two distinct samples conflict when their first index sets
intersect and, in the two-index case (a nonempty list of second index sets),
their second index sets intersect as well; the single-index case is the
degenerate form with no second index sets. The sample names are carried by
the source only for reporting and do not enter the predicate. -/
def check_conflict (sample_names : List String) (index_sets index2_sets : List IndexSet) :
    Bool :=
  let _ := sample_names
  (List.range index_sets.length).any (fun i =>
    (List.range index_sets.length).any (fun j =>
      i != j
        && !(inter (index_sets.getD i []) (index_sets.getD j [])).isEmpty
        && (index2_sets.length == 0
            || !(inter (index2_sets.getD i []) (index2_sets.getD j [])).isEmpty)))

/-- The Samples struct of sample_data.rs: per-lane sample names, optional
project names, the original index byte strings and the per-sample correction
sets (Hamming neighborhoods at the committed radius). -/
structure Samples where
  sample_names : List String
  project_names : List (Option String)
  index_vec : List Index
  index_map : List IndexSet
  index2_vec : List Index
  index2_map : List IndexSet
deriving DecidableEq, Repr

deriving instance DecidableEq for Except

/-- Helper of Samples.get_sample for one index, from sample_data.rs. -/
def Samples.get_1index_sample (smp : Samples) (i : Nat) (idx : Index) : Bool :=
  (smp.index_map.getD i []).contains idx

/-- Helper of Samples.get_sample for two indices, from sample_data.rs. -/
def Samples.get_2index_sample (smp : Samples) (i : Nat) (idx idx2 : Index) : Bool :=
  (smp.index_map.getD i []).contains idx && (smp.index2_map.getD i []).contains idx2

/-- Samples.get_sample of sample_data.rs: dispatch on the number of supplied
indices; any arity other than one or two is a panic in the source, modelled
as an error carrying the offending arity. -/
def Samples.get_sample (smp : Samples) (i : Nat) (indices : List Index) :
    Except Nat Bool :=
  match indices with
  | [idx] => .ok (smp.get_1index_sample i idx)
  | [idx, idx2] => .ok (smp.get_2index_sample i idx idx2)
  | l => .error l.length

/-- Samples.is_exact of sample_data.rs: equality with the original index
strings; any other arity is a panic, modelled as an error. -/
def Samples.is_exact (smp : Samples) (i : Nat) (indices : List Index) :
    Except Nat Bool :=
  match indices with
  | [idx] => .ok (smp.index_vec.getD i [] == idx)
  | [idx, idx2] =>
      .ok (smp.index_vec.getD i [] == idx && smp.index2_vec.getD i [] == idx2)
  | l => .error l.length

/-- Samples.is_any_sample of sample_data.rs: disjunction of the membership
test over all samples; any other arity is a panic, modelled as an error. -/
def Samples.is_any_sample (smp : Samples) (indices : List Index) :
    Except Nat Bool :=
  match indices with
  | [idx] => .ok (smp.index_map.any (fun m => m.contains idx))
  | [idx, idx2] =>
      .ok ((smp.index_map.zip smp.index2_map).any
        (fun p => p.1.contains idx && p.2.contains idx2))
  | l => .error l.length

/-- Panics of make_sample_maps in sample_data.rs, in the order in which its
assertions appear in the source. -/
inductive MapError where
  | missingIndexes
  | missingIndex2
  | missingProjects
  | duplicateNames
  | indexCollision
deriving DecidableEq, Repr

/-- The expansion loop of make_sample_maps: for each remaining radius step,
expand every index set by one Hamming distance; if the expanded sets
conflict, keep the previously committed sets and stop, otherwise commit the
expanded sets and continue. -/
def expand_loop (sample_names : List String)
    (index_hash_sets index2_hash_sets : List IndexSet) :
    Nat → List IndexSet × List IndexSet
  | 0 => (index_hash_sets, index2_hash_sets)
  | fuel + 1 =>
    let new_index_hash_sets := index_hash_sets.map hamming_set
    let new_index2_hash_sets := index2_hash_sets.map hamming_set
    if check_conflict sample_names new_index_hash_sets new_index2_hash_sets then
      (index_hash_sets, index2_hash_sets)
    else
      expand_loop sample_names new_index_hash_sets new_index2_hash_sets fuel

/-- make_sample_maps of sample_data.rs: validate the shapes of the per-lane
vectors (each assertion of the source becomes an error case, in source
order), check for a conflict at distance zero (a fatal collision), then
iteratively expand the neighborhoods up to max_distance with rollback on
conflict, and return the Samples record. -/
def make_sample_maps (sample_names : List String)
    (project_names : List (Option String))
    (index_vec index2_vec : List Index) (max_distance : Nat) :
    Except MapError Samples :=
  if sample_names.length != index_vec.length then .error .missingIndexes
  else if !(index2_vec.length == index_vec.length || index2_vec.length == 0) then
    .error .missingIndex2
  else if !((project_names.filterMap id).length == sample_names.length
      || (project_names.filterMap id).length == 0) then
    .error .missingProjects
  else if sample_names.length != sample_names.dedup.length then
    .error .duplicateNames
  else
    let index_hash_sets := index_vec.map singleton_set
    let index2_hash_sets := index2_vec.map singleton_set
    if check_conflict sample_names index_hash_sets index2_hash_sets then
      .error .indexCollision
    else
      let maps :=
        expand_loop sample_names index_hash_sets index2_hash_sets max_distance
      .ok {
        sample_names := sample_names
        project_names := project_names
        index_vec := index_vec
        index_map := maps.1
        index2_vec := index2_vec
        index2_map := maps.2
      }

/-- Byte string of a field value, as as_bytes does in the source (identical
to the character codes for the ASCII content of a sample sheet). -/
def strBytes (s : String) : Index := s.toList.map Char.toNat

/-- Per-lane accumulator of read_samplesheet: sample names, project names,
index strings and second index strings, in row order. -/
abbrev LaneGroup := List String × List (Option String) × List Index × List Index

/-- Lookup of a field in one data row: the source zips the header row with
the data row (truncating at the shorter) and collects into a hash map, where
a repeated column keeps the last occurrence, hence the reversed lookup. -/
def recordGet (header row : List String) (key : String) : Option String :=
  ((header.zip row).reverse).lookup key

/-- Entry of a lane in the accumulator, with the empty group as the default
inserted by or_insert_with in the source. -/
def lookupLane (lanes : List (Nat × LaneGroup)) (lane : Nat) : LaneGroup :=
  match lanes.lookup lane with
  | some g => g
  | none => ([], [], [], [])

/-- Replacement of the entry of a lane, keeping first-insertion order (the
source uses a hash map whose iteration order is arbitrary; order does not
affect any property stated below). -/
def updateLane : List (Nat × LaneGroup) → Nat → LaneGroup → List (Nat × LaneGroup)
  | [], lane, g => [(lane, g)]
  | (l, g0) :: rest, lane, g =>
    if l = lane then (l, g) :: rest else (l, g0) :: updateLane rest lane g

/-- Lane of a data row: the parsed Lane field when the column is present (a
panic of the source on an unparsable value, modelled as none) and the
sentinel lane zero when the column is absent. -/
def laneOf (header row : List String) : Option Nat :=
  match recordGet header row "Lane" with
  | some s => s.toNat?
  | none => some 0

/-- Project name of a data row: the Sample_Project field when present and
nonempty. -/
def projOf (header row : List String) : Option String :=
  match recordGet header row "Sample_Project" with
  | some p => if p.length > 0 then some p else none
  | none => none

/-- Push of the Index field of a data row onto the per-lane index vector:
only a present and nonempty field is pushed. -/
def idxPush (header row : List String) (idxs : List Index) : List Index :=
  match recordGet header row "Index" with
  | some idx => if idx.length > 0 then idxs ++ [strBytes idx] else idxs
  | none => idxs

/-- Push of the Index2 field of a data row onto the per-lane second index
vector: only a present and nonempty field is pushed. -/
def idx2Push (header row : List String) (idx2s : List Index) : List Index :=
  match recordGet header row "Index2" with
  | some idx2 => if idx2.length > 0 then idx2s ++ [strBytes idx2] else idx2s
  | none => idx2s

/-- Processing of one data row by read_samplesheet of sample_data.rs: parse
the lane, push the sample name (a panic when the Sample_Name field is
absent from the row, modelled as none), push the project name when present
and nonempty, and push each index only when present and nonempty. -/
def pushRow (header : List String) (lanes : List (Nat × LaneGroup)) (row : List String) :
    Option (List (Nat × LaneGroup)) := do
  let lane ← laneOf header row
  let name ← recordGet header row "Sample_Name"
  let g := lookupLane lanes lane
  some (updateLane lanes lane
    (g.1 ++ [name], g.2.1 ++ [projOf header row],
     idxPush header row g.2.2.1, idx2Push header row g.2.2.2))

/-- read_samplesheet of sample_data.rs over the already tokenized rows (the
csv tokenization is an external collaborator in the spec): drop rows until
the Data marker, require more than two remaining rows, require the
Sample_Name and Index columns, group the data rows by lane and hand each
group to make_sample_maps; every panic of the source is modelled as none. -/
def read_samplesheet (rows : List (List String)) (max_distance : Nat) :
    Option (List (Nat × Samples)) :=
  let rows := rows.dropWhile (fun r => r.getD 0 "" != "[Data]")
  if rows.length ≤ 2 then none
  else
    let header := rows.getD 1 []
    if !header.contains "Sample_Name" then none
    else if !header.contains "Index" then none
    else do
      let lanes ← (rows.drop 2).foldlM (fun ls r => pushRow header ls r) []
      lanes.mapM (fun p =>
        match make_sample_maps p.2.1 p.2.2.1 p.2.2.2.1 p.2.2.2.2 max_distance with
        | .ok smp => some (p.1, smp)
        | .error _ => none)

namespace CbclDecoder

/-- The CBCLHeader struct of cbcl_decoder.rs. The source stores each bin as
a two-element vector and each tile record as a four-element vector; they are
modelled as a pair and a quadruple. -/
structure CBCLHeader where
  version : Nat
  header_size : Nat
  bits_per_basecall : Nat
  bits_per_qscore : Nat
  number_of_bins : Nat
  bins : List (Nat × Nat)
  num_tile_records : Nat
  tile_offsets : List (Nat × Nat × Nat × Nat)
  non_PF_clusters_excluded : Nat
deriving DecidableEq, Repr

/-- One byte from the stream, as read_u8 does; none on a short read. -/
def readU8 : List Nat → Option (Nat × List Nat)
  | b :: rest => some (b, rest)
  | [] => none

/-- Little-endian sixteen-bit read, as read_u16 with LittleEndian does. -/
def readU16 : List Nat → Option (Nat × List Nat)
  | b0 :: b1 :: rest => some (b0 + 256 * b1, rest)
  | _ => none

/-- Little-endian thirty-two-bit read, as read_u32 with LittleEndian does. -/
def readU32 : List Nat → Option (Nat × List Nat)
  | b0 :: b1 :: b2 :: b3 :: rest =>
      some (b0 + 256 * (b1 + 256 * (b2 + 256 * b3)), rest)
  | _ => none

/-- The bin-reading loop of from_reader: number_of_bins pairs of
little-endian thirty-two-bit integers, pushed in order. -/
def readBins : Nat → List Nat → Option (List (Nat × Nat) × List Nat)
  | 0, l => some ([], l)
  | n + 1, l => do
    let (f, l) ← readU32 l
    let (t, l) ← readU32 l
    let (rest, l) ← readBins n l
    some ((f, t) :: rest, l)

/-- The tile-record loop of from_reader: num_tile_records quadruples of
little-endian thirty-two-bit integers, pushed in order. -/
def readTileOffsets : Nat → List Nat → Option (List (Nat × Nat × Nat × Nat) × List Nat)
  | 0, l => some ([], l)
  | n + 1, l => do
    let (tile_number, l) ← readU32 l
    let (num_clusters, l) ← readU32 l
    let (uncomp_block_size, l) ← readU32 l
    let (comp_block_size, l) ← readU32 l
    let (rest, l) ← readTileOffsets n l
    some ((tile_number, num_clusters, uncomp_block_size, comp_block_size) :: rest, l)

/-- CBCLHeader::from_reader of cbcl_decoder.rs over a byte stream. The
reader state is the remaining stream, returned alongside the header; every
failed read (short stream) aborts with none, and no field is validated. -/
def CBCLHeader.from_reader (l : List Nat) : Option (CBCLHeader × List Nat) := do
  let (version, l) ← readU16 l
  let (header_size, l) ← readU32 l
  let (bits_per_basecall, l) ← readU8 l
  let (bits_per_qscore, l) ← readU8 l
  let (number_of_bins, l) ← readU32 l
  let (bins, l) ← readBins number_of_bins l
  let (num_tile_records, l) ← readU32 l
  let (tile_offsets, l) ← readTileOffsets num_tile_records l
  let (non_PF_clusters_excluded, l) ← readU8 l
  some ({ version, header_size, bits_per_basecall, bits_per_qscore, number_of_bins,
          bins, num_tile_records, tile_offsets, non_PF_clusters_excluded }, l)

/-- Little-endian encoding of a sixteen-bit value, for stating the parse
theorem. -/
def encodeU16 (v : Nat) : List Nat := [v % 256, v / 256 % 256]

/-- Little-endian encoding of a thirty-two-bit value, for stating the parse
theorem. -/
def encodeU32 (v : Nat) : List Nat :=
  [v % 256, v / 256 % 256, v / 65536 % 256, v / 16777216 % 256]

/-- Serialized bin table, in field order. -/
def encodeBins (bs : List (Nat × Nat)) : List Nat :=
  bs.flatMap (fun b => encodeU32 b.1 ++ encodeU32 b.2)

/-- Serialized tile records, in field order. -/
def encodeTiles (ts : List (Nat × Nat × Nat × Nat)) : List Nat :=
  ts.flatMap (fun t =>
    encodeU32 t.1 ++ encodeU32 t.2.1 ++ encodeU32 t.2.2.1 ++ encodeU32 t.2.2.2)

/-- Serialization of a header in the prescribed field order, all multi-byte
integers little-endian. -/
def encodeHeader (h : CBCLHeader) : List Nat :=
  encodeU16 h.version ++ encodeU32 h.header_size ++
  [h.bits_per_basecall % 256, h.bits_per_qscore % 256] ++
  encodeU32 h.number_of_bins ++ encodeBins h.bins ++
  encodeU32 h.num_tile_records ++ encodeTiles h.tile_offsets ++
  [h.non_PF_clusters_excluded % 256]

/-- Well-formed header record: every field fits its declared width and the
two count fields match the lengths of their tables. -/
def WF (h : CBCLHeader) : Prop :=
  h.version < 65536 ∧ h.header_size < 4294967296 ∧
  h.bits_per_basecall < 256 ∧ h.bits_per_qscore < 256 ∧
  h.number_of_bins < 4294967296 ∧ h.number_of_bins = h.bins.length ∧
  (∀ b ∈ h.bins, b.1 < 4294967296 ∧ b.2 < 4294967296) ∧
  h.num_tile_records < 4294967296 ∧ h.num_tile_records = h.tile_offsets.length ∧
  (∀ t ∈ h.tile_offsets, t.1 < 4294967296 ∧ t.2.1 < 4294967296 ∧
    t.2.2.1 < 4294967296 ∧ t.2.2.2 < 4294967296) ∧
  h.non_PF_clusters_excluded < 256

end CbclDecoder

namespace CbclHeaderDecoder

/-- Modelled from the spec: the CBCLHeader of the missing module
cbcl_header_decoder.rs, holding the fields that extract_reads.rs uses: the
backing file path, the header size, the quality bin table, the flag for
excluded non-passing clusters, and the per-tile uncompressed and compressed
sizes. -/
structure CBCLHeader where
  cbcl_path : String
  header_size : Nat
  bins : List (Nat × Nat)
  non_pf_clusters_excluded : Bool
  uncompressed_size : List Nat
  compressed_size : List Nat
deriving DecidableEq, Repr

/-- Modelled from the spec: decode_qscore of the missing module
cbcl_header_decoder.rs maps a two-bit qscore index to the to field of the
bin with that index. -/
def CBCLHeader.decode_qscore (h : CBCLHeader) (b : Nat) : Nat :=
  (h.bins.getD b (0, 0)).2

/-- Modelled from the spec: the derived start_pos of the missing module
cbcl_header_decoder.rs, the header size plus the sum of the compressed sizes
of the earlier tiles. -/
def CBCLHeader.start_pos (h : CBCLHeader) (i : Nat) : Nat :=
  h.header_size + (h.compressed_size.take i).sum

end CbclHeaderDecoder

/-- u8_to_base of extract_reads.rs: a low quality gives the byte of N, and
otherwise the two-bit basecall selects the byte of A, C, G or T. -/
def u8_to_base (b q : Nat) : Nat :=
  if q ≤ 35 then 78
  else match b with
    | 0 => 65
    | 1 => 67
    | 2 => 71
    | 3 => 84
    | _ => 78

/-- unpack_byte of extract_reads.rs: the low nibble is cluster zero and the
high nibble is cluster one; each nibble holds two basecall bits below two
qscore bits; the two-element filter chunk selects which clusters are
emitted, low cluster first, and any other chunk emits nothing. -/
def unpack_byte (b : Nat) (filter : List Bool) (header : CbclHeaderDecoder.CBCLHeader) :
    List Nat :=
  let q_1 := header.decode_qscore ((b >>> 6) &&& 3)
  let b_1 := u8_to_base ((b >>> 4) &&& 3) q_1
  let q_2 := header.decode_qscore ((b >>> 2) &&& 3)
  let b_2 := u8_to_base (b &&& 3) q_2
  match filter with
  | [true, true] => [b_2, q_2, b_1, q_1]
  | [true, false] => [b_2, q_2]
  | [false, true] => [b_1, q_1]
  | _ => []

/-- Chunks of size two, as the chunks slice method with width two yields
them: full pairs in order, with a trailing singleton chunk when the length
is odd. -/
def chunks2 {α : Type} : List α → List (List α)
  | [] => []
  | [a] => [[a]]
  | a :: b :: rest => [a, b] :: chunks2 rest

/-- The unpacking expression inside process_tiles of extract_reads.rs: zip
the tile bytes with the filter chunks of width two and concatenate the
outputs of unpack_byte. -/
def unpack_tile (bytes : List Nat) (filter : List Bool)
    (header : CbclHeaderDecoder.CBCLHeader) : List Nat :=
  ((bytes.zip (chunks2 filter)).map (fun p => unpack_byte p.1 p.2 header)).flatten

/-- File system model: the contents of each file by path, with none for a
path that cannot be opened. -/
abbrev Fs := String → Option (List Nat)

/-- Error kinds of the tile decompressor per the error taxonomy of the spec:
Io for open, seek and raw-read failures, Decompress for a decoder that
cannot produce the expected number of output bytes. -/
inductive ExtractError where
  | Io
  | Decompress
deriving DecidableEq, Repr

/-- extract_tiles of extract_reads.rs over the file-system model. The gunzip
parameter models the multi-member gzip decoder of the flate2 crate as the
stream of output bytes it can produce from the compressed buffer before
hitting end of stream or a decoding error. Opening the file and an
exhausted raw read are Io failures; a decoded stream shorter than the
expected uncompressed size (underflow or decoder error) is a Decompress
failure; the successful result is exactly the expected number of decoded
bytes, and any further decodable bytes are never requested. Out-of-range
tile indices (a panic in the source) are not modelled; every theorem below
supplies an in-range index. -/
def extract_tiles (fs : Fs) (gunzip : List Nat → List Nat)
    (header : CbclHeaderDecoder.CBCLHeader) (i : Nat) :
    Except ExtractError (List Nat) :=
  let start_pos := header.start_pos i
  let uncompressed_size := header.uncompressed_size.getD i 0
  let compressed_size := header.compressed_size.getD i 0
  match fs header.cbcl_path with
  | none => .error .Io
  | some contents =>
    let region := (contents.drop start_pos)
    if region.length < compressed_size then .error .Io
    else
      let read_buffer := region.take compressed_size
      let uncomp_stream := gunzip read_buffer
      if uncomp_stream.length < uncompressed_size then .error .Decompress
      else .ok (uncomp_stream.take uncompressed_size)

/-- process_tiles of extract_reads.rs acting on one output row (the row is
the flattened base and quality pairs of one cycle): on a failed extraction
the row is left unchanged; on success the unpacked bytes are assigned to
the row, and a length mismatch is the unwrap panic of the shape check of
the source, modelled as none. -/
def process_tiles (fs : Fs) (gunzip : List Nat → List Nat)
    (header : CbclHeaderDecoder.CBCLHeader) (filter : List Bool) (i : Nat)
    (row : List Nat) : Option (List Nat) :=
  match extract_tiles fs gunzip header i with
  | .error _ => some row
  | .ok uncomp_bytes =>
    let byte_vec := unpack_tile uncomp_bytes filter header
    if byte_vec.length = row.length then some byte_vec else none

/-- One sentinel row of the output array: base N with quality number sign
for every passing cluster, flattened in row-major order. -/
def sentinel_row (n_pf : Nat) : List Nat := (List.replicate n_pf [78, 35]).flatten

/-- Count of passing clusters, as the sum that extract_reads computes over
the pass filter. -/
def n_pf_of (pf_filter : List Bool) : Nat :=
  (pf_filter.map (fun b => if b then 1 else 0)).sum

/-- extract_reads of extract_reads.rs: one row per cycle, each initialized
to the sentinel and processed with the full filter or the reduced
pass-filter according to the per-cycle header flag; none is the panic of a
shape mismatch in some successful cycle. -/
def extract_reads (fs : Fs) (gunzip : List Nat → List Nat)
    (headers : List CbclHeaderDecoder.CBCLHeader) (filter pf_filter : List Bool)
    (i : Nat) : Option (List (List Nat)) :=
  headers.mapM (fun h =>
    process_tiles fs gunzip h
      (if h.non_pf_clusters_excluded then pf_filter else filter) i
      (sentinel_row (n_pf_of pf_filter)))

/-- The two clusters encoded by one byte, low cluster first, each given as
the pair of decoded base and quality; stated from the same bit fields as
unpack_byte, for the filtering claim. -/
def byte_clusters (b : Nat) (header : CbclHeaderDecoder.CBCLHeader) : List (List Nat) :=
  [[u8_to_base (b &&& 3) (header.decode_qscore ((b >>> 2) &&& 3)),
    header.decode_qscore ((b >>> 2) &&& 3)],
   [u8_to_base ((b >>> 4) &&& 3) (header.decode_qscore ((b >>> 6) &&& 3)),
    header.decode_qscore ((b >>> 6) &&& 3)]]

/-- Clusters encoded by a byte block, in cluster order: byte k carries
cluster two k in its low nibble and cluster two k plus one in its high
nibble. -/
def tile_clusters (bytes : List Nat) (header : CbclHeaderDecoder.CBCLHeader) :
    List (List Nat) :=
  bytes.flatMap (fun b => byte_clusters b header)

/-- Clusters retained by the filter, in cluster order. -/
def selected_clusters (bytes : List Nat) (filter : List Bool)
    (header : CbclHeaderDecoder.CBCLHeader) : List (List Nat) :=
  ((tile_clusters bytes header).zip filter).filterMap
    (fun p => if p.2 then some p.1 else none)

/-- Row produced for one cycle of extract_reads when no shape panic occurs:
the sentinel row when the extraction of the tile fails, the unpacked bytes
when it succeeds. -/
def cycle_row (fs : Fs) (gunzip : List Nat → List Nat)
    (header : CbclHeaderDecoder.CBCLHeader) (filter : List Bool) (i n_pf : Nat) :
    List Nat :=
  match extract_tiles fs gunzip header i with
  | .error _ => sentinel_row n_pf
  | .ok bytes => unpack_tile bytes filter header

/-- One radius step of the neighborhood expansion: every index set of both
lists grows by one Hamming distance. -/
def expand_step (p : List IndexSet × List IndexSet) : List IndexSet × List IndexSet :=
  (p.1.map hamming_set, p.2.map hamming_set)

/-- Fixture: the quality bin table of the test data of the repository,
mapping the qscore indices zero to three to the qualities 0, 11, 25, 37. -/
def testBins : List (Nat × Nat) := [(0, 0), (1, 11), (2, 25), (3, 37)]

/-- Fixture: a header whose backing file is absent from the fixture file
system, so that its tile extraction fails with Io. -/
def hdrA : CbclHeaderDecoder.CBCLHeader :=
  { cbcl_path := "a", header_size := 0, bins := testBins,
    non_pf_clusters_excluded := false, uncompressed_size := [1], compressed_size := [1] }

/-- Fixture: a header whose backing one-byte file is present in the fixture
file system, so that its tile extraction succeeds. -/
def hdrB : CbclHeaderDecoder.CBCLHeader :=
  { cbcl_path := "b", header_size := 0, bins := testBins,
    non_pf_clusters_excluded := false, uncompressed_size := [1], compressed_size := [1] }

/-- Fixture: a header expecting zero uncompressed bytes for its only tile. -/
def hdrZ : CbclHeaderDecoder.CBCLHeader :=
  { cbcl_path := "z", header_size := 0, bins := testBins,
    non_pf_clusters_excluded := false, uncompressed_size := [0], compressed_size := [1] }

/-- Fixture: the file system holding the one-byte file of hdrB and the
one-byte file of hdrZ. -/
def fsAB : Fs := fun p => if p = "b" then some [212] else if p = "z" then some [7] else none

/-- Fixture: the header of the first concrete scenario of the spec, with the
five compressed tile sizes of the test data. -/
def hdrS : CbclHeaderDecoder.CBCLHeader :=
  { cbcl_path := "s", header_size := 7537, bins := testBins,
    non_pf_clusters_excluded := false,
    uncompressed_size := [2045952, 2045952, 2045952, 2045952, 2045952],
    compressed_size := [1353104, 1354714, 1352351, 1349026, 1349369] }

/-- Fixture: the parsed header of the test of cbcl_decoder.rs. -/
def hdrP : CbclDecoder.CBCLHeader :=
  { version := 1, header_size := 7537, bits_per_basecall := 2, bits_per_qscore := 2,
    number_of_bins := 4, bins := testBins, num_tile_records := 5,
    tile_offsets :=
      [(1101, 4091904, 2045952, 1353104), (1102, 4091904, 2045952, 1354714),
       (1103, 4091904, 2045952, 1352351), (1104, 4091904, 2045952, 1349026),
       (1105, 4091904, 2045952, 1349369)],
    non_PF_clusters_excluded := 0 }

set_option synthInstance.maxSize 1000 in
/-- Equality of lane accumulators is decidable; registered explicitly because
the nested product exceeds the default instance search size. -/
instance instDecEqNatLaneGroup : DecidableEq (Nat × LaneGroup) := inferInstance

/-- Fixture: a two-sample lane with two indices at radius one, matching the
fifth concrete scenario of the spec. -/
def smpW : Samples :=
  { sample_names := ["sample_1", "sample_2"],
    project_names := [none, none],
    index_vec := [strBytes "GGGGG", strBytes "TTTTT"],
    index_map := [hamming_set (singleton_set (strBytes "GGGGG")),
                  hamming_set (singleton_set (strBytes "TTTTT"))],
    index2_vec := [strBytes "AAAAA", strBytes "CCCCC"],
    index2_map := [hamming_set (singleton_set (strBytes "AAAAA")),
                   hamming_set (singleton_set (strBytes "CCCCC"))] }

/-! Theorems. Each claim has one main theorem; helper lemmas are shared. -/

/-- The chunk decomposition on two leading elements. -/
theorem chunks2_cons_cons {α : Type} (a b : α) (l : List α) :
    chunks2 (a :: b :: l) = [a, b] :: chunks2 l := rfl

/-- Claim C5: for every byte B and every header bin table, the two clusters
extracted from B are, in order, cluster zero with basecall bits B mask 3 and
qscore bits shift 2 mask 3, then cluster one with basecall bits shift 4
mask 3 and qscore bits shift 6 mask 3; each quality is the to value of the
bin indexed by the qscore bits, and each base is N when the quality is at
most 35 and otherwise A, C, G, T for basecall value zero to three. -/
theorem unpack_byte_decodes_clusters (b : Nat) (header : CbclHeaderDecoder.CBCLHeader) :
    unpack_byte b [true, true] header =
      [(if (header.bins.getD ((b >>> 2) &&& 3) (0, 0)).2 ≤ 35 then 78
          else [65, 67, 71, 84].getD (b &&& 3) 78),
       (header.bins.getD ((b >>> 2) &&& 3) (0, 0)).2,
       (if (header.bins.getD ((b >>> 6) &&& 3) (0, 0)).2 ≤ 35 then 78
          else [65, 67, 71, 84].getD ((b >>> 4) &&& 3) 78),
       (header.bins.getD ((b >>> 6) &&& 3) (0, 0)).2] := by
  have h2 : b &&& 3 < 4 := Nat.lt_succ_of_le Nat.and_le_right
  have h4 : (b >>> 4) &&& 3 < 4 := Nat.lt_succ_of_le Nat.and_le_right
  simp only [unpack_byte, CbclHeaderDecoder.CBCLHeader.decode_qscore, u8_to_base]
  generalize hx : b &&& 3 = x at h2 ⊢
  generalize hy : (b >>> 4) &&& 3 = y at h4 ⊢
  interval_cases x <;> interval_cases y <;> rfl

/-- Claim C6: when the filter has one bit per cluster (two clusters per
byte), the unpacker emits exactly the clusters whose filter bit is true, in
cluster order, and the number of emitted base and quality pairs is the
number of true bits of the filter. -/
theorem unpack_tile_filter_gated (bytes : List Nat) (filter : List Bool)
    (header : CbclHeaderDecoder.CBCLHeader)
    (hlen : filter.length = 2 * bytes.length) :
    unpack_tile bytes filter header = (selected_clusters bytes filter header).flatten
    ∧ (selected_clusters bytes filter header).length = filter.count true := by
  induction bytes generalizing filter with
  | nil =>
    have hf : filter = [] := List.length_eq_zero.mp (by simpa using hlen)
    subst hf
    simp [unpack_tile, selected_clusters, tile_clusters, chunks2]
  | cons b bs ih =>
    rcases filter with _ | ⟨f0, rest⟩
    · simp at hlen
    rcases rest with _ | ⟨f1, fs⟩
    · simp only [List.length_cons, List.length_nil] at hlen; omega
    have hfs : fs.length = 2 * bs.length := by
      simp only [List.length_cons] at hlen; omega
    obtain ⟨ih1, ih2⟩ := ih fs hfs
    have hA : unpack_tile (b :: bs) (f0 :: f1 :: fs) header
        = unpack_byte b [f0, f1] header ++ unpack_tile bs fs header := by
      simp [unpack_tile, chunks2_cons_cons]
    have hB : selected_clusters (b :: bs) (f0 :: f1 :: fs) header
        = ((byte_clusters b header).zip [f0, f1]).filterMap
            (fun p => if p.2 then some p.1 else none)
          ++ selected_clusters bs fs header := by
      cases f0 <;> cases f1 <;>
        simp [selected_clusters, tile_clusters, byte_clusters]
    rw [hA, hB]
    constructor
    · rw [List.flatten_append, ih1]
      cases f0 <;> cases f1 <;> simp [unpack_byte, byte_clusters]
    · rw [List.length_append, ih2]
      cases f0 <;> cases f1 <;> simp [byte_clusters, List.count_cons] <;> omega

/-- Witness for claim C6 at a concrete tile byte block and filter. -/
theorem unpack_tile_filter_gated_witness :
    ([true, false, false, true] : List Bool).length = 2 * ([212, 254] : List Nat).length
    ∧ (unpack_tile [212, 254] [true, false, false, true] hdrB
        = (selected_clusters [212, 254] [true, false, false, true] hdrB).flatten
      ∧ (selected_clusters [212, 254] [true, false, false, true] hdrB).length
        = ([true, false, false, true] : List Bool).count true) :=
  ⟨by decide, unpack_tile_filter_gated [212, 254] [true, false, false, true] hdrB (by decide)⟩

/-- Claim C4: sample lookup: with one index, get_sample is the membership
test of the index in the correction set of sample i; with two indices it is
the conjunction of the two membership tests; and any other number of
indices fails with the arity error, also for is_exact and is_any_sample. -/
theorem get_sample_membership (smp : Samples) (i : Nat) (idx idx2 : Index)
    (hi : i < smp.index_map.length) (hi2 : i < smp.index2_map.length) :
    (smp.get_sample i [idx] = .ok true ↔ idx ∈ smp.index_map.get ⟨i, hi⟩)
    ∧ (smp.get_sample i [idx, idx2] = .ok true ↔
        idx ∈ smp.index_map.get ⟨i, hi⟩ ∧ idx2 ∈ smp.index2_map.get ⟨i, hi2⟩)
    ∧ (∀ indices : List Index, indices.length ≠ 1 → indices.length ≠ 2 →
        smp.get_sample i indices = .error indices.length
        ∧ smp.is_exact i indices = .error indices.length
        ∧ smp.is_any_sample indices = .error indices.length) := by
  refine ⟨?_, ?_, ?_⟩
  · simp [Samples.get_sample, Samples.get_1index_sample, List.contains, List.elem_iff,
      List.getElem?_eq_getElem hi]
  · simp [Samples.get_sample, Samples.get_2index_sample, List.contains, List.elem_iff,
      List.getElem?_eq_getElem hi, List.getElem?_eq_getElem hi2]
  · intro indices h1 h2
    rcases indices with _ | ⟨a, _ | ⟨b, _ | ⟨c, t⟩⟩⟩
    · exact ⟨rfl, rfl, rfl⟩
    · simp at h1
    · simp at h2
    · exact ⟨rfl, rfl, rfl⟩

/-- Witness for claim C4 at a concrete lane with two samples. -/
theorem get_sample_membership_witness :
    0 < smpW.index_map.length ∧ 0 < smpW.index2_map.length
    ∧ (smpW.get_sample 0 [strBytes "GTGGG"] = .ok true ↔
        strBytes "GTGGG" ∈ smpW.index_map.get ⟨0, by decide⟩) :=
  ⟨by decide, by decide,
    (get_sample_membership smpW 0 (strBytes "GTGGG") (strBytes "AAAAA")
      (by decide) (by decide)).1⟩

/-- Empty intersection of two index sets is pairwise exclusion. -/
theorem inter_eq_nil_iff (s t : IndexSet) : inter s t = [] ↔ ∀ x ∈ s, x ∉ t := by
  simp [inter, List.filter_eq_nil_iff, List.contains, List.elem_iff]

/-- A common member makes the intersection nonempty. -/
theorem inter_ne_nil (s t : IndexSet) (x : Index) (h1 : x ∈ s) (h2 : x ∈ t) :
    inter s t ≠ [] := by
  intro he
  exact (inter_eq_nil_iff s t).mp he x h1 h2

/-- Characterization of the conflict predicate: some pair of distinct
samples has intersecting first index sets and, unless the lane is
single-index, intersecting second index sets. -/
theorem check_conflict_eq_true_iff (names : List String) (S S2 : List IndexSet) :
    check_conflict names S S2 = true ↔
      ∃ i, i < S.length ∧ ∃ j, j < S.length ∧ i ≠ j
        ∧ inter (S.getD i []) (S.getD j []) ≠ []
        ∧ (S2.length = 0 ∨ inter (S2.getD i []) (S2.getD j []) ≠ []) := by
  simp [check_conflict, List.any_eq_true, List.mem_range, List.isEmpty_iff,
    Bool.and_eq_true, Bool.or_eq_true, bne_iff_ne, beq_iff_eq, and_assoc]

/-- Negated form of the characterization for a false conflict check. -/
theorem check_conflict_false_not (names : List String) (S S2 : List IndexSet)
    (h : check_conflict names S S2 = false) :
    ¬ ∃ i, i < S.length ∧ ∃ j, j < S.length ∧ i ≠ j
        ∧ inter (S.getD i []) (S.getD j []) ≠ []
        ∧ (S2.length = 0 ∨ inter (S2.getD i []) (S2.getD j []) ≠ []) := by
  intro hx
  rw [(check_conflict_eq_true_iff names S S2).mpr hx] at h
  cases h

/-- The expansion loop preserves freedom from conflict and the lengths of
both lists: it only commits expanded sets that passed the conflict check. -/
theorem expand_loop_invariant (names : List String) (s s2 : List IndexSet) (fuel : Nat)
    (h : check_conflict names s s2 = false) :
    check_conflict names (expand_loop names s s2 fuel).1 (expand_loop names s s2 fuel).2
        = false
    ∧ (expand_loop names s s2 fuel).1.length = s.length
    ∧ (expand_loop names s s2 fuel).2.length = s2.length := by
  induction fuel generalizing s s2 with
  | zero => exact ⟨h, rfl, rfl⟩
  | succ n ih =>
    simp only [expand_loop]
    by_cases hc : check_conflict names (s.map hamming_set) (s2.map hamming_set) = true
    · rw [if_pos hc]
      exact ⟨h, rfl, rfl⟩
    · rw [if_neg hc]
      obtain ⟨a, b, c⟩ := ih _ _ (Bool.eq_false_iff.mpr hc)
      exact ⟨a, by simpa using b, by simpa using c⟩

/-- A successful make_sample_maps returns maps that are conflict free, one
per sample, for the given sample names. -/
theorem make_sample_maps_ok (sample_names : List String)
    (project_names : List (Option String)) (index_vec index2_vec : List Index)
    (max_distance : Nat) (smp : Samples)
    (hok : make_sample_maps sample_names project_names index_vec index2_vec max_distance
      = .ok smp) :
    check_conflict sample_names smp.index_map smp.index2_map = false
    ∧ smp.index_map.length = index_vec.length
    ∧ smp.index2_map.length = index2_vec.length
    ∧ smp.sample_names = sample_names := by
  unfold make_sample_maps at hok
  cases h1 : (sample_names.length != index_vec.length) with
  | true => rw [h1] at hok; simp at hok
  | false =>
  rw [h1] at hok
  cases h2 : (index2_vec.length == index_vec.length || index2_vec.length == 0) with
  | false => rw [h2] at hok; simp at hok
  | true =>
  rw [h2] at hok
  cases h3 : ((project_names.filterMap id).length == sample_names.length
      || (project_names.filterMap id).length == 0) with
  | false => rw [h3] at hok; simp at hok
  | true =>
  rw [h3] at hok
  cases h4 : (sample_names.length != sample_names.dedup.length) with
  | true => rw [h4] at hok; simp at hok
  | false =>
  rw [h4] at hok
  simp at hok
  cases h5 : check_conflict sample_names (List.map singleton_set index_vec)
      (List.map singleton_set index2_vec) with
  | true => rw [h5] at hok; simp at hok
  | false =>
    rw [h5] at hok
    simp only [Bool.false_eq_true, if_false] at hok
    injection hok with hrec
    subst hrec
    obtain ⟨a, b, c⟩ := expand_loop_invariant sample_names
      (List.map singleton_set index_vec) (List.map singleton_set index2_vec)
      max_distance h5
    exact ⟨a, by simpa using b, by simpa using c, rfl⟩

/-- Claim C2: in every Samples value returned by the sample-map constructor,
no two distinct samples collide under the conflict predicate: in the
single-index case their correction sets are disjoint, and in the two-index
case it is not the case that both the first and the second correction sets
intersect. -/
theorem samples_no_conflict (sample_names : List String)
    (project_names : List (Option String)) (index_vec index2_vec : List Index)
    (max_distance : Nat) (smp : Samples)
    (hok : make_sample_maps sample_names project_names index_vec index2_vec max_distance
      = .ok smp)
    (i j : Nat) (hi : i < smp.index_map.length) (hj : j < smp.index_map.length)
    (hne : i ≠ j) :
    (smp.index2_map.length = 0 →
      ∀ x ∈ smp.index_map.get ⟨i, hi⟩, x ∉ smp.index_map.get ⟨j, hj⟩)
    ∧ (smp.index2_map.length ≠ 0 →
      ¬((∃ x, x ∈ smp.index_map.get ⟨i, hi⟩ ∧ x ∈ smp.index_map.get ⟨j, hj⟩)
        ∧ (∃ y, y ∈ smp.index2_map.getD i [] ∧ y ∈ smp.index2_map.getD j []))) := by
  obtain ⟨hcf, hl1, hl2, hnm⟩ := make_sample_maps_ok _ _ _ _ _ _ hok
  have hnot := check_conflict_false_not _ _ _ hcf
  have hgi : smp.index_map.getD i [] = smp.index_map.get ⟨i, hi⟩ :=
    List.getD_eq_getElem _ _ hi
  have hgj : smp.index_map.getD j [] = smp.index_map.get ⟨j, hj⟩ :=
    List.getD_eq_getElem _ _ hj
  constructor
  · intro h20 x hxi hxj
    have hxi2 : x ∈ smp.index_map.getD i [] := by rw [hgi]; exact hxi
    have hxj2 : x ∈ smp.index_map.getD j [] := by rw [hgj]; exact hxj
    exact hnot ⟨i, hi, j, hj, hne, inter_ne_nil _ _ x hxi2 hxj2, Or.inl h20⟩
  · intro h2ne hcon
    obtain ⟨⟨x, hx1, hx2⟩, y, hy1, hy2⟩ := hcon
    have hx12 : x ∈ smp.index_map.getD i [] := by rw [hgi]; exact hx1
    have hx22 : x ∈ smp.index_map.getD j [] := by rw [hgj]; exact hx2
    exact hnot ⟨i, hi, j, hj, hne, inter_ne_nil _ _ x hx12 hx22,
      Or.inr (inter_ne_nil _ _ y hy1 hy2)⟩

/-- Index bound for the first sample of the fixture lane. -/
theorem smpW_len0 : 0 < smpW.index_map.length := by decide

/-- Index bound for the second sample of the fixture lane. -/
theorem smpW_len1 : 1 < smpW.index_map.length := by decide

/-- Witness for claim C2 at the concrete two-sample lane of the spec. -/
theorem samples_no_conflict_witness :
    (make_sample_maps ["sample_1", "sample_2"] [none, none]
        [strBytes "GGGGG", strBytes "TTTTT"] [strBytes "AAAAA", strBytes "CCCCC"] 1
      = .ok smpW)
    ∧ ((smpW.index2_map.length = 0 →
        ∀ x ∈ smpW.index_map.get ⟨0, smpW_len0⟩, x ∉ smpW.index_map.get ⟨1, smpW_len1⟩)
      ∧ (smpW.index2_map.length ≠ 0 →
        ¬((∃ x, x ∈ smpW.index_map.get ⟨0, smpW_len0⟩
              ∧ x ∈ smpW.index_map.get ⟨1, smpW_len1⟩)
          ∧ (∃ y, y ∈ smpW.index2_map.getD 0 [] ∧ y ∈ smpW.index2_map.getD 1 [])))) :=
  ⟨by decide,
    samples_no_conflict ["sample_1", "sample_2"] [none, none]
      [strBytes "GGGGG", strBytes "TTTTT"] [strBytes "AAAAA", strBytes "CCCCC"] 1 smpW
      (by decide) 0 1 smpW_len0 smpW_len1 (by decide)⟩


/-- When no radius up to the fuel conflicts, the loop commits every step
and returns the fully iterated expansion. -/
theorem expand_loop_eq_iterate (names : List String) (p : List IndexSet × List IndexSet)
    (fuel : Nat)
    (h : ∀ k, 1 ≤ k → k ≤ fuel →
      check_conflict names (expand_step^[k] p).1 (expand_step^[k] p).2 = false) :
    expand_loop names p.1 p.2 fuel = expand_step^[fuel] p := by
  induction fuel generalizing p with
  | zero => simp [expand_loop]
  | succ n ih =>
    have h1 : check_conflict names (expand_step p).1 (expand_step p).2 = false := by
      have := h 1 (by omega) (by omega)
      rwa [Function.iterate_one] at this
    simp only [expand_loop]
    rw [if_neg (Bool.eq_false_iff.mp (by simpa [expand_step] using h1))]
    have h2 : ∀ k, 1 ≤ k → k ≤ n →
        check_conflict names (expand_step^[k] (expand_step p)).1
          (expand_step^[k] (expand_step p)).2 = false := by
      intro k hk1 hk2
      have := h (k + 1) (by omega) (by omega)
      rwa [Function.iterate_succ_apply] at this
    exact (ih (expand_step p) h2).trans (Function.iterate_succ_apply expand_step n p).symm

/-- When radius r is the first conflicting radius within the fuel, the loop
stops there and returns the sets committed at radius r minus one. -/
theorem expand_loop_rollback (names : List String) (p : List IndexSet × List IndexSet)
    (fuel r : Nat) (hr1 : 1 ≤ r) (hr2 : r ≤ fuel)
    (hs : ∀ k, 1 ≤ k → k < r →
      check_conflict names (expand_step^[k] p).1 (expand_step^[k] p).2 = false)
    (hr : check_conflict names (expand_step^[r] p).1 (expand_step^[r] p).2 = true) :
    expand_loop names p.1 p.2 fuel = expand_step^[r - 1] p := by
  induction fuel generalizing p r with
  | zero => omega
  | succ n ih =>
    rcases Nat.eq_or_lt_of_le hr1 with he | hlt
    · subst he
      simp only [expand_loop]
      have hc : check_conflict names (p.1.map hamming_set) (p.2.map hamming_set) = true := by
        simpa [Function.iterate_one, expand_step] using hr
      rw [if_pos hc]
      simp
    · have h1 : check_conflict names (expand_step p).1 (expand_step p).2 = false := by
        have := hs 1 le_rfl (by omega)
        rwa [Function.iterate_one] at this
      simp only [expand_loop]
      rw [if_neg (Bool.eq_false_iff.mp (by simpa [expand_step] using h1))]
      have ihres := ih (expand_step p) (r - 1) (by omega) (by omega)
        (fun k hk1 hk2 => by
          have := hs (k + 1) (by omega) (by omega)
          rwa [Function.iterate_succ_apply] at this)
        (by
          have heq : expand_step^[r] p = expand_step^[r - 1] (expand_step p) := by
            conv_lhs => rw [show r = (r - 1) + 1 by omega]
            exact Function.iterate_succ_apply _ _ _
          rwa [heq] at hr)
      refine ihres.trans ?_
      rw [← Function.iterate_succ_apply]
      congr 1
      omega

/-- With all shape checks passing, make_sample_maps reduces to the
distance-zero collision check followed by the expansion loop. -/
theorem make_sample_maps_reduce (sample_names : List String)
    (project_names : List (Option String)) (index_vec index2_vec : List Index)
    (max_distance : Nat)
    (h1 : (sample_names.length != index_vec.length) = false)
    (h2 : (index2_vec.length == index_vec.length || index2_vec.length == 0) = true)
    (h3 : ((project_names.filterMap id).length == sample_names.length
        || (project_names.filterMap id).length == 0) = true)
    (h4 : (sample_names.length != sample_names.dedup.length) = false) :
    make_sample_maps sample_names project_names index_vec index2_vec max_distance
      = if check_conflict sample_names (index_vec.map singleton_set)
            (index2_vec.map singleton_set) then .error .indexCollision
        else .ok { sample_names := sample_names, project_names := project_names,
                   index_vec := index_vec,
                   index_map := (expand_loop sample_names (index_vec.map singleton_set)
                     (index2_vec.map singleton_set) max_distance).1,
                   index2_vec := index2_vec,
                   index2_map := (expand_loop sample_names (index_vec.map singleton_set)
                     (index2_vec.map singleton_set) max_distance).2 } := by
  unfold make_sample_maps
  rw [h1, h2, h3, h4]
  simp

/-- Claim C3: conflict rollback: a conflict between the distance-zero
singleton sets is the fatal IndexCollision; for the first radius r between
one and max_distance at which the expanded Hamming sets conflict, the
previously committed radius r minus one sets are kept as the final maps;
and when no radius up to max_distance conflicts, every expansion is
committed. -/
theorem make_sample_maps_rollback (sample_names : List String)
    (project_names : List (Option String)) (index_vec index2_vec : List Index)
    (max_distance : Nat)
    (h1 : (sample_names.length != index_vec.length) = false)
    (h2 : (index2_vec.length == index_vec.length || index2_vec.length == 0) = true)
    (h3 : ((project_names.filterMap id).length == sample_names.length
        || (project_names.filterMap id).length == 0) = true)
    (h4 : (sample_names.length != sample_names.dedup.length) = false) :
    (check_conflict sample_names (index_vec.map singleton_set)
        (index2_vec.map singleton_set) = true →
      make_sample_maps sample_names project_names index_vec index2_vec max_distance
        = .error .indexCollision)
    ∧ (∀ r, 1 ≤ r → r ≤ max_distance →
      check_conflict sample_names (index_vec.map singleton_set)
          (index2_vec.map singleton_set) = false →
      (∀ k, 1 ≤ k → k < r →
        check_conflict sample_names
          (expand_step^[k] (index_vec.map singleton_set, index2_vec.map singleton_set)).1
          (expand_step^[k] (index_vec.map singleton_set, index2_vec.map singleton_set)).2
          = false) →
      check_conflict sample_names
          (expand_step^[r] (index_vec.map singleton_set, index2_vec.map singleton_set)).1
          (expand_step^[r] (index_vec.map singleton_set, index2_vec.map singleton_set)).2
          = true →
      make_sample_maps sample_names project_names index_vec index2_vec max_distance
        = .ok { sample_names := sample_names, project_names := project_names,
                index_vec := index_vec,
                index_map := (expand_step^[r - 1]
                  (index_vec.map singleton_set, index2_vec.map singleton_set)).1,
                index2_vec := index2_vec,
                index2_map := (expand_step^[r - 1]
                  (index_vec.map singleton_set, index2_vec.map singleton_set)).2 })
    ∧ (check_conflict sample_names (index_vec.map singleton_set)
          (index2_vec.map singleton_set) = false →
      (∀ k, 1 ≤ k → k ≤ max_distance →
        check_conflict sample_names
          (expand_step^[k] (index_vec.map singleton_set, index2_vec.map singleton_set)).1
          (expand_step^[k] (index_vec.map singleton_set, index2_vec.map singleton_set)).2
          = false) →
      make_sample_maps sample_names project_names index_vec index2_vec max_distance
        = .ok { sample_names := sample_names, project_names := project_names,
                index_vec := index_vec,
                index_map := (expand_step^[max_distance]
                  (index_vec.map singleton_set, index2_vec.map singleton_set)).1,
                index2_vec := index2_vec,
                index2_map := (expand_step^[max_distance]
                  (index_vec.map singleton_set, index2_vec.map singleton_set)).2 }) := by
  have hm := make_sample_maps_reduce sample_names project_names index_vec index2_vec
    max_distance h1 h2 h3 h4
  refine ⟨?_, ?_, ?_⟩
  · intro hc
    rw [hm, if_pos hc]
  · intro r hr1 hr2 hc0 hks hrc
    have hloop := expand_loop_rollback sample_names
      (index_vec.map singleton_set, index2_vec.map singleton_set)
      max_distance r hr1 hr2 hks hrc
    rw [hm, if_neg (by simp [hc0])]
    rw [show expand_loop sample_names (index_vec.map singleton_set)
        (index2_vec.map singleton_set) max_distance
      = expand_step^[r - 1] (index_vec.map singleton_set, index2_vec.map singleton_set)
      from hloop]
  · intro hc0 hks
    have hloop := expand_loop_eq_iterate sample_names
      (index_vec.map singleton_set, index2_vec.map singleton_set) max_distance hks
    rw [hm, if_neg (by simp [hc0])]
    rw [show expand_loop sample_names (index_vec.map singleton_set)
        (index2_vec.map singleton_set) max_distance
      = expand_step^[max_distance] (index_vec.map singleton_set, index2_vec.map singleton_set)
      from hloop]

/-- Witness for claim C3 at the fourth concrete scenario of the spec: the
two samples ACTG and ACTC conflict at radius one, so radius zero is kept. -/
theorem make_sample_maps_rollback_witness :
    ((["sample_1", "sample_2"].length != [strBytes "ACTG", strBytes "ACTC"].length) = false)
    ∧ (check_conflict ["sample_1", "sample_2"]
        ([strBytes "ACTG", strBytes "ACTC"].map singleton_set)
        (([] : List Index).map singleton_set) = false)
    ∧ (check_conflict ["sample_1", "sample_2"]
        (expand_step^[1] ([strBytes "ACTG", strBytes "ACTC"].map singleton_set,
          ([] : List Index).map singleton_set)).1
        (expand_step^[1] ([strBytes "ACTG", strBytes "ACTC"].map singleton_set,
          ([] : List Index).map singleton_set)).2 = true)
    ∧ make_sample_maps ["sample_1", "sample_2"] [] [strBytes "ACTG", strBytes "ACTC"] [] 1
      = .ok { sample_names := ["sample_1", "sample_2"], project_names := [],
              index_vec := [strBytes "ACTG", strBytes "ACTC"],
              index_map := (expand_step^[1 - 1] ([strBytes "ACTG", strBytes "ACTC"].map
                singleton_set, ([] : List Index).map singleton_set)).1,
              index2_vec := [],
              index2_map := (expand_step^[1 - 1] ([strBytes "ACTG", strBytes "ACTC"].map
                singleton_set, ([] : List Index).map singleton_set)).2 } :=
  ⟨by decide, by decide, by decide,
    (make_sample_maps_rollback ["sample_1", "sample_2"] [] [strBytes "ACTG", strBytes "ACTC"]
        [] 1 (by decide) (by decide) (by decide) (by decide)).2.1 1 le_rfl le_rfl
      (by decide)
      (fun k hk1 hk2 => absurd (Nat.lt_of_lt_of_le hk2 hk1) (Nat.lt_irrefl k))
      (by decide)⟩


/-- Claim C9: the derived tile offsets are the prefix sums of the
compressed tile sizes starting from the header size. -/
theorem start_pos_prefix_sum (h : CbclHeaderDecoder.CBCLHeader) :
    h.start_pos 0 = h.header_size
    ∧ ∀ i (hi : i < h.compressed_size.length),
      h.start_pos (i + 1) = h.start_pos i + h.compressed_size.get ⟨i, hi⟩ := by
  constructor
  · simp [CbclHeaderDecoder.CBCLHeader.start_pos]
  · intro i hi
    simp [CbclHeaderDecoder.CBCLHeader.start_pos, List.sum_take_succ _ _ hi, Nat.add_assoc]

/-- Tile-count bound for the fixture header of the first spec scenario. -/
theorem hdrS_cs_len : 0 < hdrS.compressed_size.length := by decide

/-- Witness for claim C9 at the fixture header of the first spec scenario. -/
theorem start_pos_prefix_sum_witness :
    0 < hdrS.compressed_size.length
    ∧ hdrS.start_pos (0 + 1) = hdrS.start_pos 0 + hdrS.compressed_size.get ⟨0, hdrS_cs_len⟩ :=
  ⟨hdrS_cs_len, (start_pos_prefix_sum hdrS).2 0 hdrS_cs_len⟩

/-- Claim C7 (amended): extract_tiles opens the backing file, seeks to the
derived start position, reads exactly the compressed size of the tile (an
Io error when the file cannot be opened or holds too few bytes), feeds the
buffer to the multi-member gzip decoder and reads exactly the expected
uncompressed size from it (a Decompress error when the decoder cannot
produce that many bytes, which covers gzip errors and underflow); a
decodable stream longer than the expected size is not an error, the excess
is simply never requested. -/
theorem extract_tiles_spec (fs : Fs) (gunzip : List Nat → List Nat)
    (header : CbclHeaderDecoder.CBCLHeader) (i : Nat)
    (hi : i < header.compressed_size.length)
    (hu : i < header.uncompressed_size.length) :
    (fs header.cbcl_path = none → extract_tiles fs gunzip header i = .error .Io)
    ∧ ∀ contents, fs header.cbcl_path = some contents →
        (((contents.drop (header.start_pos i)).length
            < header.compressed_size.get ⟨i, hi⟩ →
          extract_tiles fs gunzip header i = .error .Io)
        ∧ (header.compressed_size.get ⟨i, hi⟩
            ≤ (contents.drop (header.start_pos i)).length →
          (((gunzip ((contents.drop (header.start_pos i)).take
                (header.compressed_size.get ⟨i, hi⟩))).length
              < header.uncompressed_size.get ⟨i, hu⟩ →
            extract_tiles fs gunzip header i = .error .Decompress)
          ∧ (header.uncompressed_size.get ⟨i, hu⟩ ≤
              (gunzip ((contents.drop (header.start_pos i)).take
                (header.compressed_size.get ⟨i, hi⟩))).length →
            extract_tiles fs gunzip header i
              = .ok ((gunzip ((contents.drop (header.start_pos i)).take
                  (header.compressed_size.get ⟨i, hi⟩))).take
                  (header.uncompressed_size.get ⟨i, hu⟩)))))) := by
  have hcs : header.compressed_size.getD i 0 = header.compressed_size.get ⟨i, hi⟩ :=
    List.getD_eq_getElem _ _ hi
  have hus : header.uncompressed_size.getD i 0 = header.uncompressed_size.get ⟨i, hu⟩ :=
    List.getD_eq_getElem _ _ hu
  constructor
  · intro hnone
    unfold extract_tiles
    rw [hnone]
  · intro contents hsome
    refine ⟨?_, fun hlong => ⟨?_, ?_⟩⟩
    · intro hshort
      unfold extract_tiles
      rw [hsome]
      dsimp only
      rw [if_pos (by rw [hcs]; exact hshort)]
    · intro hgz
      unfold extract_tiles
      rw [hsome]
      dsimp only
      rw [if_neg (by rw [hcs]; omega), if_pos (by rw [hcs, hus]; exact hgz)]
    · intro hok
      unfold extract_tiles
      rw [hsome]
      dsimp only
      rw [if_neg (by rw [hcs]; omega), if_neg (by rw [hcs, hus]; omega)]
      rw [hcs, hus]


/-- Tile-count bound for the one-tile fixture header. -/
theorem hdrB_cs_len : 0 < hdrB.compressed_size.length := by decide

/-- Uncompressed-size-count bound for the one-tile fixture header. -/
theorem hdrB_us_len : 0 < hdrB.uncompressed_size.length := by decide

/-- Witness for claim C7 at the one-byte fixture tile, identity decoder. -/
theorem extract_tiles_spec_witness :
    0 < hdrB.compressed_size.length ∧ 0 < hdrB.uncompressed_size.length
    ∧ extract_tiles fsAB (fun l => l) hdrB 0
      = .ok (((fun l => l) ((([212] : List Nat).drop (hdrB.start_pos 0)).take
          (hdrB.compressed_size.get ⟨0, hdrB_cs_len⟩))).take
          (hdrB.uncompressed_size.get ⟨0, hdrB_us_len⟩)) :=
  ⟨hdrB_cs_len, hdrB_us_len,
    ((((extract_tiles_spec fsAB (fun l => l) hdrB 0 hdrB_cs_len hdrB_us_len).2
      [212] (by decide)).2 (by decide)).2 (by decide))⟩

/-- Counterexample for claim C7 as stated: a decoder able to produce more
bytes than the expected uncompressed size is not a Decompress failure; with
expected size zero the extraction succeeds on any compressed garbage. -/
theorem extract_tiles_overflow_ok :
    extract_tiles fsAB (fun _ => [9, 9, 9]) hdrZ 0 = .ok []
    ∧ hdrZ.uncompressed_size.getD 0 0 = 0
    ∧ hdrZ.compressed_size.getD 0 0 = 1 := by decide

/-- Counterexample for claim C8 as stated: the header reader of
cbcl_decoder.rs performs no validation: a stream declaring three bits per
basecall, one bit per qscore and zero bins parses successfully instead of
failing with MalformedHeader. -/
theorem from_reader_no_validation :
    CbclDecoder.CBCLHeader.from_reader
        [1, 0, 5, 0, 0, 0, 3, 1, 0, 0, 0, 0, 0, 0, 0, 0, 1]
      = some ({ version := 1, header_size := 5, bits_per_basecall := 3,
                bits_per_qscore := 1, number_of_bins := 0, bins := [],
                num_tile_records := 0, tile_offsets := [],
                non_PF_clusters_excluded := 1 }, [])
    ∧ (3 : Nat) ≠ 2 ∧ (1 : Nat) ≠ 2 := by decide

/-- A monadic map over Option whose steps all succeed returns the plain map. -/
theorem mapM_option_eq_map {α β : Type} (f : α → Option β) (g : α → β) (l : List α)
    (h : ∀ a ∈ l, f a = some (g a)) : l.mapM f = some (l.map g) := by
  induction l with
  | nil => rfl
  | cons a t ih =>
    rw [List.mapM_cons, h a (List.mem_cons_self a t),
      ih (fun x hx => h x (List.mem_cons_of_mem a hx))]
    rfl

/-- Claim C1 (amended): when every cycle whose tile extraction succeeds
unpacks to a row of the expected shape, a cycle whose extraction fails
leaves its row at the sentinel values, every other row is determined by its
own cycle alone, and extract_reads returns normally. -/
theorem extract_reads_sentinel_on_failure (fs : Fs) (gunzip : List Nat → List Nat)
    (headers : List CbclHeaderDecoder.CBCLHeader) (filter pf_filter : List Bool) (i : Nat)
    (hshape : ∀ h ∈ headers, ∀ bytes, extract_tiles fs gunzip h i = .ok bytes →
      (unpack_tile bytes (if h.non_pf_clusters_excluded then pf_filter else filter) h).length
        = (sentinel_row (n_pf_of pf_filter)).length)
    (c : Nat) (hc : c < headers.length) (e : ExtractError)
    (hfail : extract_tiles fs gunzip headers[c] i = .error e) :
    ∃ m, extract_reads fs gunzip headers filter pf_filter i = some m
      ∧ m[c]? = some (sentinel_row (n_pf_of pf_filter))
      ∧ ∀ c2 (hc2 : c2 < headers.length),
          m[c2]? = some (cycle_row fs gunzip headers[c2]
            (if headers[c2].non_pf_clusters_excluded then pf_filter else filter)
            i (n_pf_of pf_filter)) := by
  have hall : ∀ h ∈ headers,
      process_tiles fs gunzip h (if h.non_pf_clusters_excluded then pf_filter else filter) i
        (sentinel_row (n_pf_of pf_filter))
      = some (cycle_row fs gunzip h
          (if h.non_pf_clusters_excluded then pf_filter else filter) i
          (n_pf_of pf_filter)) := by
    intro h hmem
    cases he : extract_tiles fs gunzip h i with
    | error e2 => simp [process_tiles, cycle_row, he]
    | ok bytes =>
      have hlen := hshape h hmem bytes he
      simp [process_tiles, cycle_row, he, hlen]
  have hmap : extract_reads fs gunzip headers filter pf_filter i
      = some (headers.map (fun h => cycle_row fs gunzip h
          (if h.non_pf_clusters_excluded then pf_filter else filter) i
          (n_pf_of pf_filter))) := by
    unfold extract_reads
    exact mapM_option_eq_map _ _ headers hall
  refine ⟨_, hmap, ?_, ?_⟩
  · rw [List.getElem?_map, List.getElem?_eq_getElem hc]
    simp [cycle_row, hfail]
  · intro c2 hc2
    rw [List.getElem?_map, List.getElem?_eq_getElem hc2]
    rfl

/-- Counterexample for claim C1 as stated: with an arbitrary filter, a
cycle whose extraction fails does not guarantee a normal return, because a
succeeding cycle whose unpacked length mismatches the output row panics in
the shape check and aborts the whole tile. -/
theorem extract_reads_shape_panic :
    extract_tiles fsAB (fun l => l) hdrA 0 = .error .Io
    ∧ extract_reads fsAB (fun l => l) [hdrA, hdrB] [] [true] 0 = none := by decide

/-- Witness for claim C1 at a two-cycle fixture where the first cycle fails
with Io and the second succeeds. -/
theorem extract_reads_sentinel_witness :
    (∀ h ∈ [hdrA, hdrB], ∀ bytes, extract_tiles fsAB (fun l => l) h 0 = .ok bytes →
      (unpack_tile bytes
          (if h.non_pf_clusters_excluded then [true, true] else [true, true]) h).length
        = (sentinel_row (n_pf_of [true, true])).length)
    ∧ ∃ m, extract_reads fsAB (fun l => l) [hdrA, hdrB] [true, true] [true, true] 0 = some m
      ∧ m[0]? = some (sentinel_row (n_pf_of [true, true]))
      ∧ ∀ c2 (hc2 : c2 < ([hdrA, hdrB] : List CbclHeaderDecoder.CBCLHeader).length),
          m[c2]? = some (cycle_row fsAB (fun l => l) [hdrA, hdrB][c2]
            (if [hdrA, hdrB][c2].non_pf_clusters_excluded then [true, true]
              else [true, true]) 0 (n_pf_of [true, true])) :=
  have hs : ∀ h ∈ [hdrA, hdrB], ∀ bytes,
      extract_tiles fsAB (fun l => l) h 0 = .ok bytes →
      (unpack_tile bytes
          (if h.non_pf_clusters_excluded then [true, true] else [true, true]) h).length
        = (sentinel_row (n_pf_of [true, true])).length := by
    intro h hmem bytes hok
    rcases List.mem_cons.mp hmem with h1 | h1
    · subst h1
      rw [show extract_tiles fsAB (fun l => l) hdrA 0 = .error .Io from by decide] at hok
      simp at hok
    · rcases List.mem_cons.mp h1 with h2 | h2
      · subst h2
        rw [show extract_tiles fsAB (fun l => l) hdrB 0 = .ok [212] from by decide] at hok
        injection hok with hb
        subst hb
        decide
      · simp at h2
  ⟨hs, extract_reads_sentinel_on_failure fsAB (fun l => l) [hdrA, hdrB]
    [true, true] [true, true] 0 hs 0 (by decide) .Io (by decide)⟩


namespace CbclDecoder

/-- Little-endian sixteen-bit round trip. -/
theorem readU16_encode (v : Nat) (hv : v < 65536) (r : List Nat) :
    readU16 (encodeU16 v ++ r) = some (v, r) := by
  have hv2 : v % 256 + 256 * (v / 256 % 256) = v := by omega
  simp only [encodeU16, List.cons_append, List.nil_append, readU16, hv2]

/-- Little-endian thirty-two-bit round trip. -/
theorem readU32_encode (v : Nat) (hv : v < 4294967296) (r : List Nat) :
    readU32 (encodeU32 v ++ r) = some (v, r) := by
  have hv2 : v % 256 + 256 * (v / 256 % 256 + 256 * (v / 65536 % 256
      + 256 * (v / 16777216 % 256))) = v := by omega
  simp only [encodeU32, List.cons_append, List.nil_append, readU32, hv2]

/-- Round trip of the bin table. -/
theorem readBins_encode (bs : List (Nat × Nat)) (r : List Nat)
    (hb : ∀ b ∈ bs, b.1 < 4294967296 ∧ b.2 < 4294967296) :
    readBins bs.length (encodeBins bs ++ r) = some (bs, r) := by
  induction bs generalizing r with
  | nil => rfl
  | cons b t ih =>
    obtain ⟨h1, h2⟩ := hb b (List.mem_cons_self b t)
    have e1 : encodeBins (b :: t) ++ r
        = encodeU32 b.1 ++ (encodeU32 b.2 ++ (encodeBins t ++ r)) := by
      simp [encodeBins, List.append_assoc]
    simp only [List.length_cons, readBins, e1, readU32_encode b.1 h1 _,
      readU32_encode b.2 h2 _, ih _ (fun x hx => hb x (List.mem_cons_of_mem b hx)),
      Option.bind_eq_bind, Option.some_bind]

/-- Round trip of the tile records. -/
theorem readTileOffsets_encode (ts : List (Nat × Nat × Nat × Nat)) (r : List Nat)
    (ht : ∀ t ∈ ts, t.1 < 4294967296 ∧ t.2.1 < 4294967296 ∧ t.2.2.1 < 4294967296
      ∧ t.2.2.2 < 4294967296) :
    readTileOffsets ts.length (encodeTiles ts ++ r) = some (ts, r) := by
  induction ts generalizing r with
  | nil => rfl
  | cons t ts2 ih =>
    obtain ⟨h1, h2, h3, h4⟩ := ht t (List.mem_cons_self t ts2)
    have e1 : encodeTiles (t :: ts2) ++ r
        = encodeU32 t.1 ++ (encodeU32 t.2.1 ++ (encodeU32 t.2.2.1
            ++ (encodeU32 t.2.2.2 ++ (encodeTiles ts2 ++ r)))) := by
      simp [encodeTiles, List.append_assoc]
    simp only [List.length_cons, readTileOffsets, e1, readU32_encode t.1 h1 _,
      readU32_encode t.2.1 h2 _, readU32_encode t.2.2.1 h3 _, readU32_encode t.2.2.2 h4 _,
      ih _ (fun x hx => ht x (List.mem_cons_of_mem t hx)),
      Option.bind_eq_bind, Option.some_bind]

/-- Parsing a serialized well-formed header consumes exactly its bytes and
returns the header unchanged, with no validation of any field. -/
theorem from_reader_encode (h : CBCLHeader) (hwf : WF h) (r : List Nat) :
    CBCLHeader.from_reader (encodeHeader h ++ r) = some (h, r) := by
  obtain ⟨w1, w2, w3, w4, w5, w6, w7, w8, w9, w10, w11⟩ := hwf
  have e0 : encodeHeader h ++ r
      = encodeU16 h.version ++ (encodeU32 h.header_size
        ++ (h.bits_per_basecall % 256 :: (h.bits_per_qscore % 256
        :: (encodeU32 h.number_of_bins ++ (encodeBins h.bins
        ++ (encodeU32 h.num_tile_records ++ (encodeTiles h.tile_offsets
        ++ ([h.non_PF_clusters_excluded % 256] ++ r)))))))) := by
    simp [encodeHeader, List.append_assoc]
  rw [CBCLHeader.from_reader, e0, Nat.mod_eq_of_lt w3, Nat.mod_eq_of_lt w4,
    Nat.mod_eq_of_lt w11]
  rw [readU16_encode h.version w1]
  simp only [Option.bind_eq_bind, Option.some_bind]
  rw [readU32_encode h.header_size w2]
  simp only [Option.some_bind]
  simp only [readU8, Option.some_bind]
  rw [readU32_encode h.number_of_bins w5]
  simp only [Option.some_bind]
  rw [w6, readBins_encode h.bins _ w7]
  simp only [Option.some_bind]
  rw [readU32_encode h.num_tile_records w8]
  simp only [Option.some_bind]
  rw [w9, readTileOffsets_encode h.tile_offsets _ w10]
  simp only [Option.some_bind, List.singleton_append, readU8]
  rw [← w6, ← w9]

/-- A successful byte read is stable under appending further input. -/
theorem readU8_append (l s : List Nat) (p : Nat × List Nat)
    (h : readU8 l = some p) : readU8 (l ++ s) = some (p.1, p.2 ++ s) := by
  cases l with
  | nil => simp [readU8] at h
  | cons a l2 =>
    obtain rfl : (a, l2) = p := by simpa [readU8] using h
    rfl

/-- A successful sixteen-bit read is stable under appending further input. -/
theorem readU16_append (l s : List Nat) (p : Nat × List Nat)
    (h : readU16 l = some p) : readU16 (l ++ s) = some (p.1, p.2 ++ s) := by
  rcases l with _ | ⟨a, _ | ⟨b, l2⟩⟩
  · simp [readU16] at h
  · simp [readU16] at h
  · obtain rfl : (a + 256 * b, l2) = p := by simpa [readU16] using h
    rfl

/-- A successful thirty-two-bit read is stable under appending input. -/
theorem readU32_append (l s : List Nat) (p : Nat × List Nat)
    (h : readU32 l = some p) : readU32 (l ++ s) = some (p.1, p.2 ++ s) := by
  rcases l with _ | ⟨a, _ | ⟨b, _ | ⟨c, _ | ⟨d, l2⟩⟩⟩⟩
  · simp [readU32] at h
  · simp [readU32] at h
  · simp [readU32] at h
  · simp [readU32] at h
  · obtain rfl : (a + 256 * (b + 256 * (c + 256 * d)), l2) = p := by
      simpa [readU32] using h
    rfl

/-- A successful bin-table read is stable under appending further input. -/
theorem readBins_append (n : Nat) (l s : List Nat) (q : List (Nat × Nat) × List Nat)
    (h : readBins n l = some q) : readBins n (l ++ s) = some (q.1, q.2 ++ s) := by
  induction n generalizing l q with
  | zero =>
    obtain rfl : (([] : List (Nat × Nat)), l) = q := by simpa [readBins] using h
    rfl
  | succ n ih =>
    simp only [readBins, Option.bind_eq_bind] at h ⊢
    cases e1 : readU32 l with
    | none => rw [e1] at h; simp at h
    | some p1 =>
      rw [e1] at h
      rw [readU32_append l s p1 e1]
      simp only [Option.some_bind] at h ⊢
      cases e2 : readU32 p1.2 with
      | none => rw [e2] at h; simp at h
      | some p2 =>
        rw [e2] at h
        rw [readU32_append p1.2 s p2 e2]
        simp only [Option.some_bind] at h ⊢
        cases e3 : readBins n p2.2 with
        | none => rw [e3] at h; simp at h
        | some p3 =>
          rw [e3] at h
          rw [ih p2.2 p3 e3]
          simp only [Option.some_bind] at h ⊢
          obtain rfl : ((p1.1, p2.1) :: p3.1, p3.2) = q := by simpa using h
          rfl

/-- A successful tile-record read is stable under appending further input. -/
theorem readTileOffsets_append (n : Nat) (l s : List Nat)
    (q : List (Nat × Nat × Nat × Nat) × List Nat)
    (h : readTileOffsets n l = some q) :
    readTileOffsets n (l ++ s) = some (q.1, q.2 ++ s) := by
  induction n generalizing l q with
  | zero =>
    obtain rfl : (([] : List (Nat × Nat × Nat × Nat)), l) = q := by
      simpa [readTileOffsets] using h
    rfl
  | succ n ih =>
    simp only [readTileOffsets, Option.bind_eq_bind] at h ⊢
    cases e1 : readU32 l with
    | none => rw [e1] at h; simp at h
    | some p1 =>
      rw [e1] at h
      rw [readU32_append l s p1 e1]
      simp only [Option.some_bind] at h ⊢
      cases e2 : readU32 p1.2 with
      | none => rw [e2] at h; simp at h
      | some p2 =>
        rw [e2] at h
        rw [readU32_append p1.2 s p2 e2]
        simp only [Option.some_bind] at h ⊢
        cases e3 : readU32 p2.2 with
        | none => rw [e3] at h; simp at h
        | some p3 =>
          rw [e3] at h
          rw [readU32_append p2.2 s p3 e3]
          simp only [Option.some_bind] at h ⊢
          cases e4 : readU32 p3.2 with
          | none => rw [e4] at h; simp at h
          | some p4 =>
            rw [e4] at h
            rw [readU32_append p3.2 s p4 e4]
            simp only [Option.some_bind] at h ⊢
            cases e5 : readTileOffsets n p4.2 with
            | none => rw [e5] at h; simp at h
            | some p5 =>
              rw [e5] at h
              rw [ih p4.2 p5 e5]
              simp only [Option.some_bind] at h ⊢
              obtain rfl : ((p1.1, p2.1, p3.1, p4.1) :: p5.1, p5.2) = q := by simpa using h
              rfl

/-- A successful header parse is stable under appending further input, with
the appended bytes left in the remaining stream. -/
theorem from_reader_append (l s : List Nat) (q : CBCLHeader × List Nat)
    (h : CBCLHeader.from_reader l = some q) :
    CBCLHeader.from_reader (l ++ s) = some (q.1, q.2 ++ s) := by
  simp only [CBCLHeader.from_reader, Option.bind_eq_bind] at h ⊢
  cases e1 : readU16 l with
  | none => rw [e1] at h; simp at h
  | some p1 =>
    rw [e1] at h
    rw [readU16_append l s p1 e1]
    simp only [Option.some_bind] at h ⊢
    cases e2 : readU32 p1.2 with
    | none => rw [e2] at h; simp at h
    | some p2 =>
      rw [e2] at h
      rw [readU32_append p1.2 s p2 e2]
      simp only [Option.some_bind] at h ⊢
      cases e3 : readU8 p2.2 with
      | none => rw [e3] at h; simp at h
      | some p3 =>
        rw [e3] at h
        rw [readU8_append p2.2 s p3 e3]
        simp only [Option.some_bind] at h ⊢
        cases e4 : readU8 p3.2 with
        | none => rw [e4] at h; simp at h
        | some p4 =>
          rw [e4] at h
          rw [readU8_append p3.2 s p4 e4]
          simp only [Option.some_bind] at h ⊢
          cases e5 : readU32 p4.2 with
          | none => rw [e5] at h; simp at h
          | some p5 =>
            rw [e5] at h
            rw [readU32_append p4.2 s p5 e5]
            simp only [Option.some_bind] at h ⊢
            cases e6 : readBins p5.1 p5.2 with
            | none => rw [e6] at h; simp at h
            | some p6 =>
              rw [e6] at h
              rw [readBins_append p5.1 p5.2 s p6 e6]
              simp only [Option.some_bind] at h ⊢
              cases e7 : readU32 p6.2 with
              | none => rw [e7] at h; simp at h
              | some p7 =>
                rw [e7] at h
                rw [readU32_append p6.2 s p7 e7]
                simp only [Option.some_bind] at h ⊢
                cases e8 : readTileOffsets p7.1 p7.2 with
                | none => rw [e8] at h; simp at h
                | some p8 =>
                  rw [e8] at h
                  rw [readTileOffsets_append p7.1 p7.2 s p8 e8]
                  simp only [Option.some_bind] at h ⊢
                  cases e9 : readU8 p8.2 with
                  | none => rw [e9] at h; simp at h
                  | some p9 =>
                    rw [e9] at h
                    rw [readU8_append p8.2 s p9 e9]
                    simp only [Option.some_bind] at h ⊢
                    obtain rfl : _ = q := by exact Option.some.inj h
                    rfl

/-- Every strict prefix of a serialized header fails to parse: the reader
fails exactly on a stream too short for its declared fields. -/
theorem from_reader_short (h : CBCLHeader) (hwf : WF h) (k : Nat)
    (hk : k < (encodeHeader h).length) :
    CBCLHeader.from_reader ((encodeHeader h).take k) = none := by
  cases hp : CBCLHeader.from_reader ((encodeHeader h).take k) with
  | none => rfl
  | some q =>
    exfalso
    have happ := from_reader_append _ ((encodeHeader h).drop k) q hp
    rw [List.take_append_drop] at happ
    have hfull := from_reader_encode h hwf []
    rw [List.append_nil] at hfull
    rw [hfull] at happ
    have he := Option.some.inj happ
    have h2 := congrArg Prod.snd he
    simp only at h2
    have hdrop : (encodeHeader h).drop k = [] := (List.append_eq_nil.mp h2.symm).2
    have := List.drop_eq_nil_iff.mp hdrop
    omega

/-- Claim C8 (amended): the header reader returns the parsed header with
all multi-byte integers read little-endian in the prescribed field order,
fails when the stream is too short to hold the declared fields, and
performs no validation of bits_per_basecall, bits_per_qscore or
number_of_bins. -/
theorem from_reader_parses (h : CBCLHeader) (hwf : WF h) (r : List Nat) :
    CBCLHeader.from_reader (encodeHeader h ++ r) = some (h, r)
    ∧ ∀ k, k < (encodeHeader h).length →
        CBCLHeader.from_reader ((encodeHeader h).take k) = none :=
  ⟨from_reader_encode h hwf r, fun k hk => from_reader_short h hwf k hk⟩

end CbclDecoder

/-- Witness for claim C8 at the header of the test of cbcl_decoder.rs. -/
theorem from_reader_parses_witness :
    CbclDecoder.WF hdrP
    ∧ CbclDecoder.CBCLHeader.from_reader (CbclDecoder.encodeHeader hdrP ++ [])
      = some (hdrP, []) :=
  have hwf : CbclDecoder.WF hdrP := by unfold CbclDecoder.WF; decide
  ⟨hwf, (CbclDecoder.from_reader_parses hdrP hwf []).1⟩


/-- Lookup of the updated lane returns the new group. -/
theorem lookup_updateLane_self (lanes : List (Nat × LaneGroup)) (lane : Nat) (g : LaneGroup) :
    (updateLane lanes lane g).lookup lane = some g := by
  induction lanes with
  | nil => simp [updateLane, List.lookup]
  | cons e rest ih =>
    obtain ⟨l0, g0⟩ := e
    by_cases he : l0 = lane
    · subst he
      simp [updateLane, List.lookup]
    · have hb : (lane == l0) = false := beq_eq_false_iff_ne.mpr (fun hh => he hh.symm)
      simp [updateLane, he, List.lookup, hb, ih]

/-- Lookup of any other lane is unchanged by an update. -/
theorem lookup_updateLane_ne (lanes : List (Nat × LaneGroup)) (lane L : Nat) (g : LaneGroup)
    (hne : L ≠ lane) : (updateLane lanes lane g).lookup L = lanes.lookup L := by
  have hbL : (L == lane) = false := beq_eq_false_iff_ne.mpr hne
  induction lanes with
  | nil => simp [updateLane, List.lookup, hbL]
  | cons e rest ih =>
    obtain ⟨l0, g0⟩ := e
    by_cases he : l0 = lane
    · subst he
      simp [updateLane, List.lookup, hbL]
    · by_cases hL : l0 = L
      · subst hL
        simp [updateLane, he, List.lookup]
      · have hb : (L == l0) = false := beq_eq_false_iff_ne.mpr (fun hh => hL hh.symm)
        simp [updateLane, he, List.lookup, hb, ih]

/-- The accumulator entry of the updated lane is the new group. -/
theorem lookupLane_updateLane_self (lanes : List (Nat × LaneGroup)) (lane : Nat)
    (g : LaneGroup) : lookupLane (updateLane lanes lane g) lane = g := by
  simp [lookupLane, lookup_updateLane_self]

/-- The accumulator entry of any other lane is unchanged by an update. -/
theorem lookupLane_updateLane_ne (lanes : List (Nat × LaneGroup)) (lane L : Nat)
    (g : LaneGroup) (hne : L ≠ lane) :
    lookupLane (updateLane lanes lane g) L = lookupLane lanes L := by
  simp [lookupLane, lookup_updateLane_ne lanes lane L g hne]

/-- Characterization of a successful row push: the lane parses, the sample
name is present, and the lane entry is extended with the row fields. -/
theorem pushRow_some (header row : List String) (lanes lanes2 : List (Nat × LaneGroup))
    (h : pushRow header lanes row = some lanes2) :
    ∃ lane name, laneOf header row = some lane
      ∧ recordGet header row "Sample_Name" = some name
      ∧ lanes2 = updateLane lanes lane
          ((lookupLane lanes lane).1 ++ [name],
           (lookupLane lanes lane).2.1 ++ [projOf header row],
           idxPush header row (lookupLane lanes lane).2.2.1,
           idx2Push header row (lookupLane lanes lane).2.2.2) := by
  unfold pushRow at h
  cases e1 : laneOf header row with
  | none => rw [e1] at h; simp at h
  | some lane =>
    rw [e1] at h
    cases e2 : recordGet header row "Sample_Name" with
    | none => rw [e2] at h; simp at h
    | some name =>
      rw [e2] at h
      simp only [Option.bind_eq_bind, Option.some_bind] at h
      exact ⟨lane, name, rfl, rfl, (Option.some.inj h).symm⟩

/-- The index vector grows by at most one entry per row. -/
theorem idxPush_le (header row : List String) (idxs : List Index) :
    idxs.length ≤ (idxPush header row idxs).length
    ∧ (idxPush header row idxs).length ≤ idxs.length + 1 := by
  unfold idxPush
  cases recordGet header row "Index" with
  | none => simp
  | some v =>
    by_cases hv : v.length > 0 <;> simp [hv]

/-- The second index vector grows by at most one entry per row. -/
theorem idx2Push_le (header row : List String) (idx2s : List Index) :
    idx2s.length ≤ (idx2Push header row idx2s).length
    ∧ (idx2Push header row idx2s).length ≤ idx2s.length + 1 := by
  unfold idx2Push
  cases recordGet header row "Index2" with
  | none => simp
  | some v =>
    by_cases hv : v.length > 0 <;> simp [hv]

/-- An empty Index field pushes nothing. -/
theorem idxPush_empty (header row : List String) (idxs : List Index)
    (he : recordGet header row "Index" = some "") : idxPush header row idxs = idxs := by
  simp [idxPush, he]

/-- An empty Index2 field pushes nothing. -/
theorem idx2Push_empty (header row : List String) (idx2s : List Index)
    (he : recordGet header row "Index2" = some "") : idx2Push header row idx2s = idx2s := by
  simp [idx2Push, he]

/-- A nonempty Index2 field pushes exactly one entry. -/
theorem idx2Push_full (header row : List String) (idx2s : List Index) (v : String)
    (he : recordGet header row "Index2" = some v) (hv : 0 < v.length) :
    (idx2Push header row idx2s).length = idx2s.length + 1 := by
  simp [idx2Push, he, hv]

/-- Per-lane length bookkeeping of one row push: the sample-name count of
the row lane grows by exactly one while each index count grows by at most
one (by zero exactly when the field is empty, by one exactly when the
second index is present and nonempty), and every other lane is untouched. -/
theorem pushRow_step (header row : List String) (lanes lanes1 : List (Nat × LaneGroup))
    (L : Nat) (h : pushRow header lanes row = some lanes1) :
    (laneOf header row = some L →
      (lookupLane lanes1 L).1.length = (lookupLane lanes L).1.length + 1
      ∧ (lookupLane lanes L).2.2.1.length ≤ (lookupLane lanes1 L).2.2.1.length
      ∧ (lookupLane lanes1 L).2.2.1.length ≤ (lookupLane lanes L).2.2.1.length + 1
      ∧ (lookupLane lanes L).2.2.2.length ≤ (lookupLane lanes1 L).2.2.2.length
      ∧ (lookupLane lanes1 L).2.2.2.length ≤ (lookupLane lanes L).2.2.2.length + 1
      ∧ (recordGet header row "Index" = some "" →
          (lookupLane lanes1 L).2.2.1.length = (lookupLane lanes L).2.2.1.length)
      ∧ (recordGet header row "Index2" = some "" →
          (lookupLane lanes1 L).2.2.2.length = (lookupLane lanes L).2.2.2.length)
      ∧ (∀ v, recordGet header row "Index2" = some v → 0 < v.length →
          (lookupLane lanes1 L).2.2.2.length = (lookupLane lanes L).2.2.2.length + 1))
    ∧ (laneOf header row ≠ some L → lookupLane lanes1 L = lookupLane lanes L) := by
  obtain ⟨lane, name, hl, hn, rfl⟩ := pushRow_some _ _ _ _ h
  constructor
  · intro hL
    have he : lane = L := by
      rw [hl] at hL
      exact Option.some.inj hL
    subst he
    rw [lookupLane_updateLane_self]
    have hidx := idxPush_le header row (lookupLane lanes lane).2.2.1
    have hidx2 := idx2Push_le header row (lookupLane lanes lane).2.2.2
    refine ⟨by simp, hidx.1, hidx.2, hidx2.1, hidx2.2, ?_, ?_, ?_⟩
    · intro hE
      rw [idxPush_empty header row _ hE]
    · intro hE
      rw [idx2Push_empty header row _ hE]
    · intro v hv hvp
      exact idx2Push_full header row _ v hv hvp
  · intro hL
    have hne : lane ≠ L := fun hh => hL (by rw [← hh]; exact hl)
    exact lookupLane_updateLane_ne _ _ _ _ (Ne.symm hne)

/-- The grouping fold preserves the per-lane count inequalities: an index
count never overtakes the sample-name count, strict gaps stay strict, and
positive counts stay positive. -/
theorem foldlM_pushRow_preserve (header : List String) (rows : List (List String))
    (L : Nat) (lanes0 lanes : List (Nat × LaneGroup))
    (hfold : rows.foldlM (fun ls r => pushRow header ls r) lanes0 = some lanes) :
    ((lookupLane lanes0 L).2.2.1.length ≤ (lookupLane lanes0 L).1.length →
      (lookupLane lanes L).2.2.1.length ≤ (lookupLane lanes L).1.length)
    ∧ ((lookupLane lanes0 L).2.2.1.length < (lookupLane lanes0 L).1.length →
      (lookupLane lanes L).2.2.1.length < (lookupLane lanes L).1.length)
    ∧ ((lookupLane lanes0 L).2.2.2.length ≤ (lookupLane lanes0 L).1.length →
      (lookupLane lanes L).2.2.2.length ≤ (lookupLane lanes L).1.length)
    ∧ ((lookupLane lanes0 L).2.2.2.length < (lookupLane lanes0 L).1.length →
      (lookupLane lanes L).2.2.2.length < (lookupLane lanes L).1.length)
    ∧ (1 ≤ (lookupLane lanes0 L).2.2.2.length → 1 ≤ (lookupLane lanes L).2.2.2.length)
    ∧ (1 ≤ (lookupLane lanes0 L).1.length → 1 ≤ (lookupLane lanes L).1.length) := by
  induction rows generalizing lanes0 with
  | nil =>
    obtain rfl : lanes0 = lanes := by simpa using hfold
    exact ⟨id, id, id, id, id, id⟩
  | cons a rest ih =>
    rw [List.foldlM_cons] at hfold
    cases e1 : pushRow header lanes0 a with
    | none => rw [e1] at hfold; simp at hfold
    | some lanes1 =>
      rw [e1] at hfold
      simp only [Option.bind_eq_bind, Option.some_bind] at hfold
      have hrest := ih lanes1 hfold
      obtain ⟨hsame, hother⟩ := pushRow_step header a lanes0 lanes1 L e1
      by_cases hL : laneOf header a = some L
      · obtain ⟨hn1, ha1, ha2, hb1, hb2, _, _, _⟩ := hsame hL
        refine ⟨?_, ?_, ?_, ?_, ?_, ?_⟩ <;> intro h0
        · exact hrest.1 (by omega)
        · exact hrest.2.1 (by omega)
        · exact hrest.2.2.1 (by omega)
        · exact hrest.2.2.2.1 (by omega)
        · exact hrest.2.2.2.2.1 (by omega)
        · exact hrest.2.2.2.2.2 (by omega)
      · have heq := hother hL
        refine ⟨?_, ?_, ?_, ?_, ?_, ?_⟩ <;> intro h0
        · exact hrest.1 (by rw [heq]; exact h0)
        · exact hrest.2.1 (by rw [heq]; exact h0)
        · exact hrest.2.2.1 (by rw [heq]; exact h0)
        · exact hrest.2.2.2.1 (by rw [heq]; exact h0)
        · exact hrest.2.2.2.2.1 (by rw [heq]; exact h0)
        · exact hrest.2.2.2.2.2 (by rw [heq]; exact h0)

/-- A processed row with an empty Index field leaves its lane with strictly
fewer indices than sample names. -/
theorem foldlM_pushRow_empty_index (header : List String) (rows : List (List String))
    (L : Nat) (r : List String) (lanes0 lanes : List (Nat × LaneGroup))
    (hfold : rows.foldlM (fun ls q => pushRow header ls q) lanes0 = some lanes)
    (hmem : r ∈ rows) (hlane : laneOf header r = some L)
    (hempty : recordGet header r "Index" = some "")
    (hinv : (lookupLane lanes0 L).2.2.1.length ≤ (lookupLane lanes0 L).1.length) :
    (lookupLane lanes L).2.2.1.length < (lookupLane lanes L).1.length
    ∧ 1 ≤ (lookupLane lanes L).1.length := by
  induction rows generalizing lanes0 with
  | nil => cases hmem
  | cons a rest ih =>
    rw [List.foldlM_cons] at hfold
    cases e1 : pushRow header lanes0 a with
    | none => rw [e1] at hfold; simp at hfold
    | some lanes1 =>
      rw [e1] at hfold
      simp only [Option.bind_eq_bind, Option.some_bind] at hfold
      obtain ⟨hsame, hother⟩ := pushRow_step header a lanes0 lanes1 L e1
      rcases List.mem_cons.mp hmem with rfl | hmem2
      · obtain ⟨hn1, ha1, ha2, _, _, hEmp, _, _⟩ := hsame hlane
        have hEi := hEmp hempty
        have hpres := foldlM_pushRow_preserve header rest L lanes1 lanes hfold
        exact ⟨hpres.2.1 (by omega), hpres.2.2.2.2.2 (by omega)⟩
      · by_cases hL : laneOf header a = some L
        · obtain ⟨hn1, ha1, ha2, _, _, _, _, _⟩ := hsame hL
          exact ih lanes1 hfold hmem2 (by omega)
        · exact ih lanes1 hfold hmem2 (by rw [hother hL]; exact hinv)

/-- A processed row with an empty Index2 field leaves its lane with
strictly fewer second indices than sample names. -/
theorem foldlM_pushRow_empty_index2 (header : List String) (rows : List (List String))
    (L : Nat) (r : List String) (lanes0 lanes : List (Nat × LaneGroup))
    (hfold : rows.foldlM (fun ls q => pushRow header ls q) lanes0 = some lanes)
    (hmem : r ∈ rows) (hlane : laneOf header r = some L)
    (hempty : recordGet header r "Index2" = some "")
    (hinv : (lookupLane lanes0 L).2.2.2.length ≤ (lookupLane lanes0 L).1.length) :
    (lookupLane lanes L).2.2.2.length < (lookupLane lanes L).1.length
    ∧ 1 ≤ (lookupLane lanes L).1.length := by
  induction rows generalizing lanes0 with
  | nil => cases hmem
  | cons a rest ih =>
    rw [List.foldlM_cons] at hfold
    cases e1 : pushRow header lanes0 a with
    | none => rw [e1] at hfold; simp at hfold
    | some lanes1 =>
      rw [e1] at hfold
      simp only [Option.bind_eq_bind, Option.some_bind] at hfold
      obtain ⟨hsame, hother⟩ := pushRow_step header a lanes0 lanes1 L e1
      rcases List.mem_cons.mp hmem with rfl | hmem2
      · obtain ⟨hn1, _, _, hb1, hb2, _, hEmp2, _⟩ := hsame hlane
        have hEi := hEmp2 hempty
        have hpres := foldlM_pushRow_preserve header rest L lanes1 lanes hfold
        exact ⟨hpres.2.2.2.1 (by omega), hpres.2.2.2.2.2 (by omega)⟩
      · by_cases hL : laneOf header a = some L
        · obtain ⟨hn1, _, _, hb1, hb2, _, _, _⟩ := hsame hL
          exact ih lanes1 hfold hmem2 (by omega)
        · exact ih lanes1 hfold hmem2 (by rw [hother hL]; exact hinv)

/-- A processed row with a nonempty Index2 field leaves its lane with at
least one second index. -/
theorem foldlM_pushRow_has_index2 (header : List String) (rows : List (List String))
    (L : Nat) (r2 : List String) (lanes0 lanes : List (Nat × LaneGroup))
    (hfold : rows.foldlM (fun ls q => pushRow header ls q) lanes0 = some lanes)
    (hmem : r2 ∈ rows) (hlane : laneOf header r2 = some L) (v : String)
    (hv : recordGet header r2 "Index2" = some v) (hvp : 0 < v.length) :
    1 ≤ (lookupLane lanes L).2.2.2.length := by
  induction rows generalizing lanes0 with
  | nil => cases hmem
  | cons a rest ih =>
    rw [List.foldlM_cons] at hfold
    cases e1 : pushRow header lanes0 a with
    | none => rw [e1] at hfold; simp at hfold
    | some lanes1 =>
      rw [e1] at hfold
      simp only [Option.bind_eq_bind, Option.some_bind] at hfold
      obtain ⟨hsame, hother⟩ := pushRow_step header a lanes0 lanes1 L e1
      rcases List.mem_cons.mp hmem with rfl | hmem2
      · obtain ⟨_, _, _, _, _, _, _, hFull⟩ := hsame hlane
        have hEi := hFull v hv hvp
        have hpres := foldlM_pushRow_preserve header rest L lanes1 lanes hfold
        exact hpres.2.2.2.2.1 (by omega)
      · exact ih lanes1 hfold hmem2

/-- A lane with at least one sample name has an entry in the accumulator. -/
theorem lookupLane_pos (lanes : List (Nat × LaneGroup)) (L : Nat)
    (h : 1 ≤ (lookupLane lanes L).1.length) :
    lanes.lookup L = some (lookupLane lanes L) := by
  cases e : lanes.lookup L with
  | none =>
    exfalso
    unfold lookupLane at h
    rw [e] at h
    simp at h
  | some g =>
    unfold lookupLane
    rw [e]

/-- A successful association lookup yields a member of the list. -/
theorem lookup_mem (lanes : List (Nat × LaneGroup)) (L : Nat) (g : LaneGroup)
    (h : lanes.lookup L = some g) : (L, g) ∈ lanes := by
  induction lanes with
  | nil => simp [List.lookup] at h
  | cons e rest ih =>
    obtain ⟨k, v⟩ := e
    by_cases hk : L = k
    · subst hk
      have hv : v = g := by simpa [List.lookup] using h
      subst hv
      exact List.mem_cons_self _ _
    · have hb : (L == k) = false := beq_eq_false_iff_ne.mpr hk
      simp only [List.lookup, hb] at h
      exact List.mem_cons_of_mem _ (ih h)

/-- A monadic map over Option fails when any element fails. -/
theorem mapM_option_none {α β : Type} (f : α → Option β) (l : List α) (a : α)
    (ha : a ∈ l) (hf : f a = none) : l.mapM f = none := by
  induction l with
  | nil => cases ha
  | cons b t ih =>
    rw [List.mapM_cons]
    rcases List.mem_cons.mp ha with rfl | ha2
    · rw [hf]
      simp only [Option.bind_eq_bind, Option.none_bind]
    · cases e : f b with
      | none =>
        simp only [Option.bind_eq_bind, Option.none_bind]
      | some x =>
        simp only [Option.bind_eq_bind, Option.some_bind, ih ha2, Option.none_bind]

/-- The shape checks of make_sample_maps reject a lane whose index vector
count mismatches the sample names, or whose second index vector is neither
full nor empty. -/
theorem make_sample_maps_rejects (sample_names : List String)
    (project_names : List (Option String)) (index_vec index2_vec : List Index)
    (max_distance : Nat)
    (hbad : sample_names.length ≠ index_vec.length
      ∨ (index2_vec.length ≠ index_vec.length ∧ index2_vec.length ≠ 0)) :
    ∃ e, make_sample_maps sample_names project_names index_vec index2_vec max_distance
      = .error e := by
  by_cases h1 : sample_names.length = index_vec.length
  · rcases hbad with hb | ⟨hb1, hb2⟩
    · exact absurd h1 hb
    · refine ⟨.missingIndex2, ?_⟩
      have c1 : (sample_names.length != index_vec.length) = false := by
        simp [h1]
      have c2 : (index2_vec.length == index_vec.length || index2_vec.length == 0) = false := by
        simp [hb1, hb2]
      unfold make_sample_maps
      rw [c1, c2]
      simp
  · refine ⟨.missingIndexes, ?_⟩
    have c1 : (sample_names.length != index_vec.length) = true := bne_iff_ne.mpr h1
    unfold make_sample_maps
    rw [c1]
    simp

/-- Claim C10: a data row with an empty Index field (or, in a two-index
lane, an empty Index2 field) is not silently skipped: the sample name of
the row is recorded while the empty index is not, so the per-lane index
vector ends up strictly shorter than the sample-name vector, the shape
checks of the constructor reject the lane, and read_samplesheet fails
instead of returning a SampleData. -/
theorem read_samplesheet_rejects_empty_index
    (rows : List (List String)) (max_distance : Nat)
    (rows2 : List (List String)) (header : List String)
    (hrows2 : rows2 = rows.dropWhile (fun q => q.getD 0 "" != "[Data]"))
    (hheader : header = rows2.getD 1 [])
    (hlen : ¬ rows2.length ≤ 2)
    (hname : header.contains "Sample_Name" = true)
    (hidx : header.contains "Index" = true)
    (lanes : List (Nat × LaneGroup))
    (hfold : (rows2.drop 2).foldlM (fun ls q => pushRow header ls q) [] = some lanes)
    (L : Nat) (r : List String)
    (hmem : r ∈ rows2.drop 2) (hlane : laneOf header r = some L) :
    (recordGet header r "Index" = some "" →
      ∃ g, lanes.lookup L = some g ∧ g.2.2.1.length < g.1.length
        ∧ read_samplesheet rows max_distance = none)
    ∧ ((recordGet header r "Index2" = some ""
        ∧ ∃ r2 v, r2 ∈ rows2.drop 2 ∧ laneOf header r2 = some L
            ∧ recordGet header r2 "Index2" = some v ∧ 0 < v.length) →
      ∃ g, lanes.lookup L = some g ∧ g.2.2.2.length < g.1.length
        ∧ 1 ≤ g.2.2.2.length
        ∧ read_samplesheet rows max_distance = none) := by
  have core : ∀ g, lanes.lookup L = some g →
      (∃ e, make_sample_maps g.1 g.2.1 g.2.2.1 g.2.2.2 max_distance = .error e) →
      read_samplesheet rows max_distance = none := by
    rintro g hg ⟨e, he⟩
    unfold read_samplesheet
    rw [← hrows2, if_neg hlen, ← hheader]
    dsimp only
    rw [hname, hidx]
    simp only [Bool.not_true, Bool.false_eq_true, if_false]
    rw [hfold]
    simp only [Option.bind_eq_bind, Option.some_bind]
    exact mapM_option_none _ lanes (L, g) (lookup_mem lanes L g hg) (by simp [he])
  constructor
  · intro hempty
    have hE := foldlM_pushRow_empty_index header (rows2.drop 2) L r [] lanes hfold hmem
      hlane hempty (by simp [lookupLane, List.lookup])
    have hg : lanes.lookup L = some (lookupLane lanes L) :=
      lookupLane_pos lanes L (by omega)
    refine ⟨lookupLane lanes L, hg, hE.1, core _ hg ?_⟩
    exact make_sample_maps_rejects _ _ _ _ _ (Or.inl (by omega))
  · rintro ⟨hempty2, r2, v, hmem2, hlane2, hv, hvp⟩
    have hE := foldlM_pushRow_empty_index2 header (rows2.drop 2) L r [] lanes hfold hmem
      hlane hempty2 (by simp [lookupLane, List.lookup])
    have hI2 := foldlM_pushRow_has_index2 header (rows2.drop 2) L r2 [] lanes hfold hmem2
      hlane2 v hv hvp
    have hg : lanes.lookup L = some (lookupLane lanes L) :=
      lookupLane_pos lanes L (by omega)
    refine ⟨lookupLane lanes L, hg, hE.1, hI2, core _ hg ?_⟩
    apply make_sample_maps_rejects
    by_cases hq : (lookupLane lanes L).1.length = (lookupLane lanes L).2.2.1.length
    · exact Or.inr ⟨by omega, by omega⟩
    · exact Or.inl hq

/-- Witness for claim C10 at a concrete sheet whose second data row has an
empty Index field. -/
theorem read_samplesheet_rejects_empty_index_witness :
    recordGet ["Sample_Name", "Index"] ["s2", ""] "Index" = some ""
    ∧ ∃ g, (([(0, (["s1", "s2"], [none, none], [strBytes "AAAA"], ([] : List Index)))])
          : List (Nat × LaneGroup)).lookup 0 = some g
        ∧ g.2.2.1.length < g.1.length
        ∧ read_samplesheet [["[Data]"], ["Sample_Name", "Index"], ["s1", "AAAA"], ["s2", ""]] 1
          = none :=
  ⟨by decide,
    (read_samplesheet_rejects_empty_index
      [["[Data]"], ["Sample_Name", "Index"], ["s1", "AAAA"], ["s2", ""]] 1
      [["[Data]"], ["Sample_Name", "Index"], ["s1", "AAAA"], ["s2", ""]]
      ["Sample_Name", "Index"]
      (by decide) (by decide) (by decide) (by decide) (by decide)
      [(0, (["s1", "s2"], [none, none], [strBytes "AAAA"], []))]
      (by decide) 0 ["s2", ""] (by decide) (by decide)).1 (by decide)⟩
